/-
Verification of the PGN move layer of rust-chess.

Shallow embedding of src/chess_common.rs and src/chess_pgn.rs:
the coordinate and piece vocabulary, the chess-move builder and its
validation, the PGN move formatter, the character-driven phased move
parser, the move list with its turn tracking, and the game rendering
with 80-column wrap.  Rust strings are modelled as List Char, fallible
operations return Except.
-/
import Mathlib

deriving instance DecidableEq for Except

namespace RustChess

/-- Whose turn it is (chess_common.rs, enum ChessTurn). -/
inductive ChessTurn
  | WhiteToMove
  | BlackToMove
  deriving DecidableEq, Repr

/-- Piece kinds (chess_common.rs, enum ChessPiece). -/
inductive ChessPiece
  | Pawn
  | Knight
  | Bishop
  | Rook
  | Queen
  | King
  deriving DecidableEq, Repr

/-- Display for ChessPiece: the canonical piece letter. -/
def ChessPiece.toChar : ChessPiece → Char
  | .Pawn => 'P'
  | .Knight => 'N'
  | .Bishop => 'B'
  | .Rook => 'R'
  | .Queen => 'Q'
  | .King => 'K'

/-- ChessPiece::from(char): decode a piece letter; pawn has no letter. -/
def ChessPiece.fromChar : Char → Option ChessPiece
  | 'N' => some .Knight
  | 'B' => some .Bishop
  | 'R' => some .Rook
  | 'Q' => some .Queen
  | 'K' => some .King
  | _ => none

/-- Castle directions (chess_common.rs, enum ChessCastle). -/
inductive ChessCastle
  | KingsideCastle
  | QueensideCastle
  deriving DecidableEq, Repr

/-- Board files A..H (chess_common.rs, enum ChessFile). -/
inductive ChessFile
  | A | B | C | D | E | F | G | H
  deriving DecidableEq, Repr

/-- Display for ChessFile: lowercase file letter. -/
def ChessFile.toChar : ChessFile → Char
  | .A => 'a'
  | .B => 'b'
  | .C => 'c'
  | .D => 'd'
  | .E => 'e'
  | .F => 'f'
  | .G => 'g'
  | .H => 'h'

/-- ChessFile::from(char). -/
def ChessFile.fromChar : Char → Option ChessFile
  | 'a' => some .A
  | 'b' => some .B
  | 'c' => some .C
  | 'd' => some .D
  | 'e' => some .E
  | 'f' => some .F
  | 'g' => some .G
  | 'h' => some .H
  | _ => none

/-- Board ranks 1..8 (chess_common.rs, enum ChessRank). -/
inductive ChessRank
  | R1 | R2 | R3 | R4 | R5 | R6 | R7 | R8
  deriving DecidableEq, Repr

/-- Display for ChessRank: the rank digit. -/
def ChessRank.toChar : ChessRank → Char
  | .R1 => '1'
  | .R2 => '2'
  | .R3 => '3'
  | .R4 => '4'
  | .R5 => '5'
  | .R6 => '6'
  | .R7 => '7'
  | .R8 => '8'

/-- ChessRank::from(char). -/
def ChessRank.fromChar : Char → Option ChessRank
  | '1' => some .R1
  | '2' => some .R2
  | '3' => some .R3
  | '4' => some .R4
  | '5' => some .R5
  | '6' => some .R6
  | '7' => some .R7
  | '8' => some .R8
  | _ => none

/-- A possibly partial square coordinate (chess_common.rs, ChessCoordinate). -/
structure ChessCoordinate where
  file : Option ChessFile
  rank : Option ChessRank
  deriving DecidableEq, Repr

/-- ChessCoordinate::is_empty. -/
def ChessCoordinate.is_empty (c : ChessCoordinate) : Bool :=
  c.rank.isNone && c.file.isNone

/-- ChessCoordinate::is_complete. -/
def ChessCoordinate.is_complete (c : ChessCoordinate) : Bool :=
  c.rank.isSome && c.file.isSome

/-- The structured move (chess_pgn.rs, struct ChessMove). -/
structure ChessMove where
  origin : Option ChessCoordinate
  destination : Option ChessCoordinate
  moving_piece : Option ChessPiece
  castle : Option ChessCastle
  promotion : Option ChessPiece
  is_capture : Bool
  is_check : Bool
  is_check_mate : Bool
  deriving DecidableEq, Repr

/-- The move builder (chess_pgn.rs, struct ChessMoveBuilder); same fields
as ChessMove but with the moving piece still optional. -/
structure ChessMoveBuilder where
  origin : Option ChessCoordinate
  destination : Option ChessCoordinate
  moving_piece : Option ChessPiece
  castle : Option ChessCastle
  promotion : Option ChessPiece
  is_capture : Bool
  is_check : Bool
  is_check_mate : Bool
  deriving DecidableEq, Repr

/-- Builder validation errors (chess_pgn.rs, enum ChessMoveBuildError). -/
inductive ChessMoveBuildError
  | InvalidMove
  | ImpossibleMove
  | MissingDestination
  | MissingMoveData
  | InvalidInputFormat
  deriving DecidableEq, Repr

/-- ChessMoveBuilder::new(). -/
def ChessMoveBuilder.new : ChessMoveBuilder :=
  { origin := none, destination := none, moving_piece := none, castle := none,
    promotion := none, is_capture := false, is_check := false, is_check_mate := false }

/-- ChessMoveBuilder::set_origin. -/
def ChessMoveBuilder.set_origin (b : ChessMoveBuilder) (o : ChessCoordinate) : ChessMoveBuilder :=
  { b with origin := some o }

/-- ChessMoveBuilder::set_destination. -/
def ChessMoveBuilder.set_destination (b : ChessMoveBuilder) (d : ChessCoordinate) : ChessMoveBuilder :=
  { b with destination := some d }

/-- ChessMoveBuilder::set_is_capture. -/
def ChessMoveBuilder.set_is_capture (b : ChessMoveBuilder) (c : Bool) : ChessMoveBuilder :=
  { b with is_capture := c }

/-- ChessMoveBuilder::set_moving_piece. -/
def ChessMoveBuilder.set_moving_piece (b : ChessMoveBuilder) (p : ChessPiece) : ChessMoveBuilder :=
  { b with moving_piece := some p }

/-- ChessMoveBuilder::set_castle. -/
def ChessMoveBuilder.set_castle (b : ChessMoveBuilder) (c : ChessCastle) : ChessMoveBuilder :=
  { b with castle := some c }

/-- ChessMoveBuilder::set_promotion. -/
def ChessMoveBuilder.set_promotion (b : ChessMoveBuilder) (p : ChessPiece) : ChessMoveBuilder :=
  { b with promotion := some p }

/-- ChessMoveBuilder::set_is_check. -/
def ChessMoveBuilder.set_is_check (b : ChessMoveBuilder) (c : Bool) : ChessMoveBuilder :=
  { b with is_check := c }

/-- ChessMoveBuilder::set_is_check_mate. -/
def ChessMoveBuilder.set_is_check_mate (b : ChessMoveBuilder) (c : Bool) : ChessMoveBuilder :=
  { b with is_check_mate := c }

/-- ChessMoveBuilder::build: the cascade of early-return validations of
chess_pgn.rs lines 907-968, followed by construction of the move with the
moving piece defaulted to Pawn. -/
def ChessMoveBuilder.build (b : ChessMoveBuilder) : Except ChessMoveBuildError ChessMove :=
  if b.is_check && b.is_check_mate then .error .ImpossibleMove
  else if b.castle.isSome && (b.is_capture || b.promotion.isSome) then .error .ImpossibleMove
  else if (match b.destination with
           | some dest => !dest.is_complete
           | none => false) then .error .MissingDestination
  else if b.destination.isNone && b.castle.isNone then .error .MissingMoveData
  else
    let piece := b.moving_piece.getD .Pawn
    if decide (piece = .Pawn) && b.is_capture &&
       (match b.origin with
        | some orig => orig.file.isNone
        | none => true) then .error .MissingMoveData
    else .ok { origin := b.origin, destination := b.destination, moving_piece := some piece,
               castle := b.castle, promotion := b.promotion, is_capture := b.is_capture,
               is_check := b.is_check, is_check_mate := b.is_check_mate }

/-
The Display implementation for ChessMove (chess_pgn.rs lines 481-551),
written as the concatenation of one helper per appended piece of output.
-/

/-- The piece letter of a formatted move: pawns are never shown. -/
def movePieceChars : Option ChessPiece → List Char
  | some p => if p = ChessPiece.Pawn then [] else [p.toChar]
  | none => []

/-- The origin part of a formatted move: the origin file if present, then
the origin rank, which is shown only for a non-pawn moving piece. -/
def originChars (mp : Option ChessPiece) : Option ChessCoordinate → List Char
  | some orig =>
    (match orig.file with
     | some f => [f.toChar]
     | none => [])
    ++ (match orig.rank with
        | some r =>
          (match mp with
           | some p => if p = ChessPiece.Pawn then [] else [r.toChar]
           | none => [])
        | none => [])
  | none => []

/-- The capture marker of a formatted move. -/
def capChars (cap : Bool) : List Char :=
  if cap then ['x'] else []

/-- The destination part of a formatted move: file then rank, each if present. -/
def destChars : Option ChessCoordinate → List Char
  | some dest =>
    (match dest.file with
     | some f => [f.toChar]
     | none => [])
    ++ (match dest.rank with
        | some r => [r.toChar]
        | none => [])
  | none => []

/-- The promotion part of a formatted move. -/
def promoChars : Option ChessPiece → List Char
  | none => []
  | some promote => ['=', promote.toChar]

/-- The check or checkmate marker of a formatted move. -/
def checkChars (chk mate : Bool) : List Char :=
  if mate then ['#'] else if chk then ['+'] else []

/-- The Display implementation for ChessMove: castle token alone, else
piece letter, origin, capture marker, destination and promotion, followed
in every case by the check or checkmate marker. -/
def formatMove (m : ChessMove) : List Char :=
  (match m.castle with
   | some .KingsideCastle => ['O', '-', 'O']
   | some .QueensideCastle => ['O', '-', 'O', '-', 'O']
   | none =>
     movePieceChars m.moving_piece
     ++ originChars m.moving_piece m.origin
     ++ capChars m.is_capture
     ++ destChars m.destination
     ++ promoChars m.promotion)
  ++ checkChars m.is_check m.is_check_mate

/-- Rust char::is_whitespace: the Unicode White_Space code points. -/
def rustIsWhitespace (c : Char) : Bool :=
  let n := c.toNat
  (0x09 ≤ n && n ≤ 0x0D) || n = 0x20 || n = 0x85 || n = 0xA0 || n = 0x1680 ||
  (0x2000 ≤ n && n ≤ 0x200A) || n = 0x2028 || n = 0x2029 || n = 0x202F ||
  n = 0x205F || n = 0x3000

/-- Rust str::is_ascii: every character is in the ASCII range. -/
def isAsciiChars (l : List Char) : Bool :=
  l.all (fun c => c.toNat ≤ 127)

/-- Rust str::trim: strip leading and trailing whitespace. -/
def trimChars (l : List Char) : List Char :=
  (l.dropWhile rustIsWhitespace).rdropWhile rustIsWhitespace

/-
The move parser, ChessMove::from (chess_pgn.rs lines 558-783).

The Rust code is a single loop over a `MoveBuildPhase` variable holding the
current character; phases only ever advance (CheckCastle, PieceType, Origin,
Capture, Destination, Promotion, Checks, Done), so the loop is embedded as
one function per phase, each consuming the remaining characters of the
(already trimmed) input.  A `continue` in the source is a call to the next
phase on the same character list; falling through the bottom of the loop is
a call on the tail.  `castle_count`, `board_file` and `board_rank` are the
loop-local accumulators of the source.
-/

/-- Parser phase Checks: a '+' sets check, a '#' sets checkmate (the phase
then moves to Done, which breaks and builds, discarding any rest); any other
remaining character is an InvalidMove; end of input builds. -/
def checksPhase (l : List Char) (b : ChessMoveBuilder) : Except ChessMoveBuildError ChessMove :=
  match l with
  | [] => b.build
  | c :: _ =>
    if c = '+' then (b.set_is_check true).build
    else if c = '#' then (b.set_is_check_mate true).build
    else .error .InvalidMove

/-- Parser phase Promotion: a '=' must be followed by a piece letter; any
other character falls through to Checks; end of input builds. -/
def promotionPhase (l : List Char) (b : ChessMoveBuilder) : Except ChessMoveBuildError ChessMove :=
  match l with
  | [] => b.build
  | c :: cs =>
    if c = '=' then
      match cs with
      | [] => .error .InvalidMove
      | c2 :: cs2 =>
        match ChessPiece.fromChar c2 with
        | some p => checksPhase cs2 (b.set_promotion p)
        | none => .error .InvalidMove
    else checksPhase (c :: cs) b

/-- Resolution of the Destination phase (the `if complete` block of the
shared Origin|Destination arm, taken in phase Destination): the collected
coordinate, when not empty, is unconditionally the destination; end of
input builds, otherwise parsing continues in phase Promotion. -/
def destinationResolve (l : List Char) (bf : Option ChessFile) (br : Option ChessRank)
    (b : ChessMoveBuilder) : Except ChessMoveBuildError ChessMove :=
  let coord : ChessCoordinate := { file := bf, rank := br }
  let b' := if coord.is_empty then b else b.set_destination coord
  match l with
  | [] => b'.build
  | _ :: _ => promotionPhase l b'

/-- Parser phase Destination: greedily collect up to one file character
into the empty file slot, else up to one rank character into the empty rank
slot (consuming it), stopping at the first character that fits neither. -/
def destinationPhase (l : List Char) (bf : Option ChessFile) (br : Option ChessRank)
    (b : ChessMoveBuilder) : Except ChessMoveBuildError ChessMove :=
  match l with
  | c :: cs =>
    if bf.isNone && (ChessFile.fromChar c).isSome then
      destinationPhase cs (ChessFile.fromChar c) br b
    else if br.isNone && (ChessRank.fromChar c).isSome then
      destinationResolve cs bf (ChessRank.fromChar c) b
    else destinationResolve (c :: cs) bf br b
  | [] => destinationResolve [] bf br b

/-- Parser phase Capture: an 'x' is consumed and sets the capture flag;
any other character falls through to Destination; end of input is an
InvalidMove. -/
def capturePhase (l : List Char) (bf : Option ChessFile) (br : Option ChessRank)
    (b : ChessMoveBuilder) : Except ChessMoveBuildError ChessMove :=
  match l with
  | [] => .error .InvalidMove
  | c :: cs =>
    if c = 'x' then destinationPhase cs bf br (b.set_is_capture true)
    else destinationPhase (c :: cs) bf br b

/-- Resolution of the Origin phase: the collected coordinate, when not
empty, is kept as origin unless the next character is '=', '+' or '#' or the
input ends, in which case it is reinterpreted as the destination; parsing
then continues in Promotion, Checks or Capture as decided by that same
character (the board slots are reset to empty). -/
def originResolve (l : List Char) (bf : Option ChessFile) (br : Option ChessRank)
    (b : ChessMoveBuilder) : Except ChessMoveBuildError ChessMove :=
  let coord : ChessCoordinate := { file := bf, rank := br }
  let b' :=
    if coord.is_empty then b
    else
      match l with
      | c :: _ =>
        if c = '=' || c = '+' || c = '#' then b.set_destination coord
        else b.set_origin coord
      | [] => b.set_destination coord
  match l with
  | [] => b'.build
  | c :: cs =>
    if c = '=' then promotionPhase (c :: cs) b'
    else if c = '+' || c = '#' then checksPhase (c :: cs) b'
    else capturePhase (c :: cs) none none b'

/-- Parser phase Origin: same greedy collection as Destination, resolved
by originResolve. -/
def originPhase (l : List Char) (bf : Option ChessFile) (br : Option ChessRank)
    (b : ChessMoveBuilder) : Except ChessMoveBuildError ChessMove :=
  match l with
  | c :: cs =>
    if bf.isNone && (ChessFile.fromChar c).isSome then
      originPhase cs (ChessFile.fromChar c) br b
    else if br.isNone && (ChessRank.fromChar c).isSome then
      originResolve cs bf (ChessRank.fromChar c) b
    else originResolve (c :: cs) bf br b
  | [] => originResolve [] bf br b

/-- Parser phase PieceType: a piece letter is consumed and recorded as the
moving piece; any other character falls through to Origin; end of input is
an InvalidMove. -/
def pieceTypePhase (l : List Char) (b : ChessMoveBuilder) : Except ChessMoveBuildError ChessMove :=
  match l with
  | [] => .error .InvalidMove
  | c :: cs =>
    match ChessPiece.fromChar c with
    | some p => originPhase cs none none (b.set_moving_piece p)
    | none => originPhase (c :: cs) none none b

/-- Parser phase CheckCastle: count 'O' characters, skipping '-'; the phase
is resolved by the first other character (which is then consumed and
discarded) or by the end of input: a count of 3 is a queenside castle, 2 a
kingside castle (both continue in phase Checks), a count of 0 with a
character in hand falls through to PieceType, anything else is an
InvalidMove. -/
def checkCastlePhase (l : List Char) (castle_count : Nat) (b : ChessMoveBuilder) :
    Except ChessMoveBuildError ChessMove :=
  match l with
  | c :: cs =>
    if c = 'O' then checkCastlePhase cs (castle_count + 1) b
    else if c = '-' then checkCastlePhase cs castle_count b
    else if castle_count = 3 then
      checksPhase cs ((b.set_castle .QueensideCastle).set_moving_piece .King)
    else if castle_count = 2 then
      checksPhase cs ((b.set_castle .KingsideCastle).set_moving_piece .King)
    else if castle_count = 0 then pieceTypePhase (c :: cs) b
    else .error .InvalidMove
  | [] =>
    if castle_count = 3 then
      checksPhase [] ((b.set_castle .QueensideCastle).set_moving_piece .King)
    else if castle_count = 2 then
      checksPhase [] ((b.set_castle .KingsideCastle).set_moving_piece .King)
    else .error .InvalidMove

/-- ChessMove::from: reject the empty string as MissingMoveData, reject any
non-ASCII string as InvalidInputFormat, then trim the string and run the
phase loop starting at CheckCastle with an empty builder. -/
def ChessMove.fromChars (s : List Char) : Except ChessMoveBuildError ChessMove :=
  if s.length = 0 then .error .MissingMoveData
  else if !isAsciiChars s then .error .InvalidInputFormat
  else checkCastlePhase (trimChars s) 0 ChessMoveBuilder.new

/-- States of a move pair (chess_pgn.rs, enum PgnMoveState). -/
inductive PgnMoveState
  | WhiteToMove
  | BlackToMove
  | MoveComplete
  deriving DecidableEq, Repr

/-- A move pair: optional white and black half-moves (chess_pgn.rs, struct PgnMove). -/
structure PgnMove where
  white_move : Option ChessMove
  black_move : Option ChessMove
  deriving DecidableEq, Repr

/-- PgnMove::new(). -/
def PgnMove.new : PgnMove :=
  { white_move := none, black_move := none }

/-- PgnMove::get_state. -/
def PgnMove.get_state (pm : PgnMove) : PgnMoveState :=
  if pm.white_move.isNone then .WhiteToMove
  else if pm.black_move.isNone then .BlackToMove
  else .MoveComplete

/-- PgnMove::add_move: fill the white slot first, then the black slot; the
returned Bool reports whether the move was stored. -/
def PgnMove.add_move (pm : PgnMove) (new_move : ChessMove) : PgnMove × Bool :=
  match pm.white_move with
  | none => ({ pm with white_move := some new_move }, true)
  | some _ =>
    match pm.black_move with
    | none => ({ pm with black_move := some new_move }, true)
    | some _ => (pm, false)

/-- PgnMove::remove_move: remove and return the black half if present, else
the white half; an empty pair yields none. -/
def PgnMove.remove_move (pm : PgnMove) : Option ChessMove × PgnMove :=
  match pm.black_move with
  | some m => (some m, { pm with black_move := none })
  | none =>
    match pm.white_move with
    | some m => (some m, { pm with white_move := none })
    | none => (none, pm)

/-- The move list (chess_pgn.rs, struct MoveList): a vector of move pairs,
most recent last. -/
structure MoveList where
  moves : List PgnMove
  deriving DecidableEq, Repr

/-- MoveList::new(). -/
def MoveList.new : MoveList :=
  { moves := [] }

/-- MoveList::push_move: an empty list first gets a fresh pair; then the
move is added to the last pair, or to a newly appended pair when the last
one is complete. -/
def MoveList.push_move (l : MoveList) (new_move : ChessMove) : MoveList :=
  let moves := if l.moves.isEmpty then [PgnMove.new] else l.moves
  match moves.getLast? with
  | some m =>
    match m.get_state with
    | .MoveComplete => { moves := moves ++ [(PgnMove.new.add_move new_move).1] }
    | _ => { moves := moves.dropLast ++ [(m.add_move new_move).1] }
  | none => { moves := moves }

/-- The while loop of MoveList::pop_move: repeatedly try to remove a
half-move from the last pair, dropping a pair that yields nothing. -/
def popAux (ms : List PgnMove) : Option ChessMove × List PgnMove :=
  match h : ms.getLast? with
  | none => (none, ms)
  | some pm =>
    match pm.remove_move with
    | (some mv, pm') => (some mv, ms.dropLast ++ [pm'])
    | (none, _) =>
      -- the matched pair shows the list is nonempty, so dropLast shortens it
      have : ms.dropLast.length < ms.length := by
        cases ms with
        | nil => simp at h
        | cons a as => simp [List.length_dropLast]
      popAux ms.dropLast
termination_by ms.length

/-- MoveList::pop_move. -/
def MoveList.pop_move (l : MoveList) : Option ChessMove × MoveList :=
  let (r, ms) := popAux l.moves
  (r, { moves := ms })

/-- MoveList::get_turn: derived from the state of the last pair. -/
def MoveList.get_turn (l : MoveList) : ChessTurn :=
  match l.moves.getLast? with
  | some m =>
    match m.get_state with
    | .MoveComplete => .WhiteToMove
    | .WhiteToMove => .WhiteToMove
    | .BlackToMove => .BlackToMove
  | none => .WhiteToMove

/-- Game results (chess_pgn.rs, enum PgnResult). -/
inductive PgnResult
  | WhiteWin
  | BlackWin
  | Draw
  | Unknown
  deriving DecidableEq, Repr

/-- Display for PgnResult. -/
def pgnResultChars : PgnResult → List Char
  | .WhiteWin => ['1', '-', '0']
  | .BlackWin => ['0', '-', '1']
  | .Draw => ['1', '/', '2', '-', '1', '/', '2']
  | .Unknown => ['*']

/-- A PGN date with optional components (chess_pgn.rs, struct PgnDate). -/
structure PgnDate where
  year : Option Int
  month : Option Nat
  day : Option Nat
  deriving DecidableEq, Repr

/-- Zero-pad a natural number to the given width. -/
def padNum (w : Nat) (n : Nat) : List Char :=
  let s := Nat.toDigits 10 n
  List.replicate (w - s.length) '0' ++ s

/-- Rust format "{:0w}" on a signed integer: the sign counts toward the width. -/
def padInt (w : Nat) (y : Int) : List Char :=
  if y < 0 then
    let s := Nat.toDigits 10 y.natAbs
    '-' :: (List.replicate (w - (s.length + 1)) '0' ++ s)
  else padNum w y.toNat

/-- Display for PgnDate: yyyy.mm.dd with ? for missing components. -/
def pgnDateChars (d : PgnDate) : List Char :=
  (match d.year with
   | some y => padInt 4 y
   | none => ['?', '?', '?', '?'])
  ++ ['.']
  ++ (match d.month with
      | some m => padNum 2 m
      | none => ['?', '?'])
  ++ ['.']
  ++ (match d.day with
      | some dd => padNum 2 dd
      | none => ['?', '?'])

/-- Round information (chess_pgn.rs, enum PgnRound). -/
inductive PgnRound
  | Known (rounds : List Nat)
  | Unknown
  | Inappropriate
  deriving DecidableEq, Repr

/-- The dot-joined rendering of a known round list. -/
def roundListChars : List Nat → List Char
  | [] => []
  | [n] => Nat.toDigits 10 n
  | n :: rest => Nat.toDigits 10 n ++ '.' :: roundListChars rest

/-- Display for PgnRound. -/
def pgnRoundChars : PgnRound → List Char
  | .Known rounds => roundListChars rounds
  | .Unknown => ['?']
  | .Inappropriate => ['-']

/-- A tag pair (chess_pgn.rs, struct PgnTagPair); the value is rendered
by the given function, taking the place of the Display bound. -/
structure PgnTagPair (α : Type) where
  tag_name : List Char
  tag_value : α
  deriving DecidableEq, Repr

/-- Display for PgnTagPair: [Name "Value"]. -/
def tagPairChars {α : Type} (render : α → List Char) (tp : PgnTagPair α) : List Char :=
  '[' :: tp.tag_name ++ ' ' :: '"' :: render tp.tag_value ++ ['"', ']']

/-- Display for PgnMove: white half followed by a space and the black half;
nothing is printed when the white half is missing. -/
def pgnMoveChars (pm : PgnMove) : List Char :=
  match pm.white_move with
  | some wm =>
    formatMove wm ++ ' ' ::
      (match pm.black_move with
       | some bm => formatMove bm
       | none => [])
  | none => []

/-- Rust str::split_whitespace: the maximal whitespace-free substrings. -/
def splitWs (l : List Char) : List (List Char) :=
  (l.foldr
    (fun c acc =>
      if rustIsWhitespace c then [] :: acc
      else
        match acc with
        | [] => [[c]]
        | t :: ts => (c :: t) :: ts)
    [[]]).filter (fun t => !t.isEmpty)

/-- One token of the wrapping pass of the MoveList Display implementation
(chess_pgn.rs lines 310-328); state is (output, new_line, carriage_returned). -/
def tokenStep (st : List Char × List Char × Bool) (token : List Char) :
    List Char × List Char × Bool :=
  let (output, new_line, carriage_returned) := st
  if carriage_returned then
    (output, new_line ++ (if new_line.length ≠ 0 then [' '] else []) ++ token, true)
  else if token.length + new_line.length < 80 then
    (output, new_line ++ token, false)
  else
    (output ++ new_line ++ ['\n'], [], true)

/-- The pair loop of the MoveList Display implementation: each pair is
rendered as "ply. white black"; a pair whose text would reach the
80-column budget goes through the token-level wrapping pass. -/
def displayMoveListAux (moves : List PgnMove) (i : Nat) (output new_line : List Char) :
    List Char :=
  match moves with
  | [] => output ++ new_line
  | pm :: rest =>
    let mvs := Nat.toDigits 10 (i + 1) ++ '.' :: ' ' :: pgnMoveChars pm
    if 80 ≤ mvs.length + new_line.length then
      let st := (splitWs mvs).foldl tokenStep (output, new_line, false)
      displayMoveListAux rest (i + 1) st.1 st.2.1
    else
      displayMoveListAux rest (i + 1) output (new_line ++ mvs ++ [' '])

/-- Display for MoveList. -/
def MoveList.displayChars (l : MoveList) : List Char :=
  displayMoveListAux l.moves 0 [] []

/-- A PGN game: the seven required tag pairs and the move list
(chess_pgn.rs, struct PgnGame). -/
structure PgnGame where
  event : PgnTagPair (List Char)
  site : PgnTagPair (List Char)
  date : PgnTagPair PgnDate
  round : PgnTagPair PgnRound
  white : PgnTagPair (List Char)
  black : PgnTagPair (List Char)
  result : PgnTagPair PgnResult
  moves : MoveList

/-- The last element of Rust's output.split("\n"): the suffix after the
last newline, or the whole string when there is none. -/
def lastLine (l : List Char) : List Char :=
  (l.reverse.takeWhile (fun c => c ≠ '\n')).reverse

/-- Display for PgnGame (chess_pgn.rs lines 45-74): the seven tag lines,
a blank line, the move list, then the result value, preceded by a newline
when the last line plus the rendered result tag pair reaches 80 columns. -/
def PgnGame.displayChars (g : PgnGame) : List Char :=
  let output :=
    tagPairChars id g.event ++ '\n' ::
    (tagPairChars id g.site ++ '\n' ::
    (tagPairChars pgnDateChars g.date ++ '\n' ::
    (tagPairChars pgnRoundChars g.round ++ '\n' ::
    (tagPairChars id g.white ++ '\n' ::
    (tagPairChars id g.black ++ '\n' ::
    (tagPairChars pgnResultChars g.result ++ '\n' ::
    ('\n' :: g.moves.displayChars)))))))
  let output :=
    if 80 ≤ (lastLine output).length + (tagPairChars pgnResultChars g.result).length then
      output ++ ['\n']
    else output
  output ++ pgnResultChars g.result.tag_value

/-- Whether pat occurs as a contiguous run inside s. -/
def startsWithChars : List Char → List Char → Bool
  | [], _ => true
  | _ :: _, [] => false
  | p :: ps, c :: cs => p = c && startsWithChars ps cs

/-- Substring occurrence test used to state facts about rendered output. -/
def occurs (pat : List Char) : List Char → Bool
  | [] => pat.isEmpty
  | c :: cs => startsWithChars pat (c :: cs) || occurs pat cs

/-
Sanity checks: the unit tests of chess_pgn.rs (mod test_move_parsing and
mod test_move_printing), evaluated on the embedding.
-/

example : ChessMove.fromChars ['N', 'e', 'c', '3'] =
    .ok { origin := some { file := some .E, rank := none },
          destination := some { file := some .C, rank := some .R3 },
          moving_piece := some .Knight, castle := none, promotion := none,
          is_capture := false, is_check := false, is_check_mate := false } := by rfl

example : ChessMove.fromChars ['N', '5', 'c', '3'] =
    .ok { origin := some { file := none, rank := some .R5 },
          destination := some { file := some .C, rank := some .R3 },
          moving_piece := some .Knight, castle := none, promotion := none,
          is_capture := false, is_check := false, is_check_mate := false } := by rfl

example : ChessMove.fromChars ['N', 'b', '5', 'c', '3'] =
    .ok { origin := some { file := some .B, rank := some .R5 },
          destination := some { file := some .C, rank := some .R3 },
          moving_piece := some .Knight, castle := none, promotion := none,
          is_capture := false, is_check := false, is_check_mate := false } := by rfl

example : ChessMove.fromChars ['N', 'e', '4', 'x', 'd', '6', '#'] =
    .ok { origin := some { file := some .E, rank := some .R4 },
          destination := some { file := some .D, rank := some .R6 },
          moving_piece := some .Knight, castle := none, promotion := none,
          is_capture := true, is_check := false, is_check_mate := true } := by rfl

example : ChessMove.fromChars ['e', 'x', 'd', '8', '=', 'Q', '#'] =
    .ok { origin := some { file := some .E, rank := none },
          destination := some { file := some .D, rank := some .R8 },
          moving_piece := some .Pawn, castle := none, promotion := some .Queen,
          is_capture := true, is_check := false, is_check_mate := true } := by rfl

example : ChessMove.fromChars ['a', 's', 'd', 'f', ';', 'l', 'k', 'j'] =
    .error .InvalidMove := by rfl

example : formatMove
    { origin := some { file := some .B, rank := some .R1 },
      destination := some { file := some .C, rank := some .R3 },
      moving_piece := some .Knight, castle := none, promotion := none,
      is_capture := true, is_check := false, is_check_mate := false } =
    ['N', 'b', '1', 'x', 'c', '3'] := by rfl

example : formatMove
    { origin := some { file := some .E, rank := none },
      destination := some { file := some .D, rank := some .R5 },
      moving_piece := some .Pawn, castle := none, promotion := none,
      is_capture := true, is_check := false, is_check_mate := false } =
    ['e', 'x', 'd', '5'] := by rfl

example : formatMove
    { origin := none,
      destination := some { file := some .E, rank := some .R8 },
      moving_piece := some .Queen, castle := none, promotion := none,
      is_capture := false, is_check := true, is_check_mate := false } =
    ['Q', 'e', '8', '+'] := by rfl

example : formatMove
    { origin := none,
      destination := some { file := some .E, rank := some .R8 },
      moving_piece := some .Pawn, castle := none, promotion := some .Queen,
      is_capture := false, is_check := false, is_check_mate := true } =
    ['e', '8', '=', 'Q', '#'] := by rfl

/-
Character classification facts used by the parser proofs.
-/

theorem file_fromChar_toChar (f : ChessFile) : ChessFile.fromChar f.toChar = some f := by
  cases f <;> rfl

theorem rank_fromChar_toChar (r : ChessRank) : ChessRank.fromChar r.toChar = some r := by
  cases r <;> rfl

theorem rank_fromChar_fileChar (f : ChessFile) : ChessRank.fromChar f.toChar = none := by
  cases f <;> rfl

theorem file_fromChar_rankChar (r : ChessRank) : ChessFile.fromChar r.toChar = none := by
  cases r <;> rfl

theorem piece_fromChar_fileChar (f : ChessFile) : ChessPiece.fromChar f.toChar = none := by
  cases f <;> rfl

theorem piece_fromChar_toChar (p : ChessPiece) (hp : p ≠ .Pawn) :
    ChessPiece.fromChar p.toChar = some p := by
  cases p <;> first | exact absurd rfl hp | rfl

theorem fileChar_ne_O (f : ChessFile) : f.toChar ≠ 'O' := by cases f <;> decide

theorem fileChar_ne_dash (f : ChessFile) : f.toChar ≠ '-' := by cases f <;> decide

theorem fileChar_ne_x (f : ChessFile) : f.toChar ≠ 'x' := by cases f <;> decide

theorem fileChar_ne_eq (f : ChessFile) : f.toChar ≠ '=' := by cases f <;> decide

theorem fileChar_ne_plus (f : ChessFile) : f.toChar ≠ '+' := by cases f <;> decide

theorem fileChar_ne_hash (f : ChessFile) : f.toChar ≠ '#' := by cases f <;> decide

theorem pieceChar_ne_O (p : ChessPiece) : p.toChar ≠ 'O' := by cases p <;> decide

theorem pieceChar_ne_dash (p : ChessPiece) : p.toChar ≠ '-' := by cases p <;> decide

theorem file_fromChar_x : ChessFile.fromChar 'x' = none := by rfl

theorem rank_fromChar_x : ChessRank.fromChar 'x' = none := by rfl

/-
Facts about trimming.
-/

theorem mem_of_mem_dropWhile {p : Char → Bool} :
    ∀ {l : List Char} {c : Char}, c ∈ l.dropWhile p → c ∈ l
  | a :: t, c, h => by
    by_cases hpa : p a
    · simp only [List.dropWhile_cons, hpa, if_true] at h
      exact List.mem_cons_of_mem a (mem_of_mem_dropWhile h)
    · simpa [List.dropWhile_cons, hpa] using h

theorem mem_of_mem_trim {l : List Char} {c : Char} (h : c ∈ trimChars l) : c ∈ l := by
  unfold trimChars List.rdropWhile at h
  rw [List.mem_reverse] at h
  have h2 := mem_of_mem_dropWhile h
  rw [List.mem_reverse] at h2
  exact mem_of_mem_dropWhile h2

theorem dropWhile_eq_self_of_all {p : Char → Bool} {l : List Char}
    (h : ∀ c ∈ l, p c = false) : l.dropWhile p = l := by
  cases l with
  | nil => rfl
  | cons a t => simp [List.dropWhile_cons, h a (List.mem_cons_self a t)]

theorem trim_eq_self_of_all {l : List Char}
    (h : ∀ c ∈ l, rustIsWhitespace c = false) : trimChars l = l := by
  unfold trimChars List.rdropWhile
  rw [dropWhile_eq_self_of_all h]
  rw [dropWhile_eq_self_of_all fun c hc => h c (List.mem_reverse.mp hc)]
  exact l.reverse_reverse

theorem trim_eq_nil_of_all {l : List Char}
    (h : ∀ c ∈ l, rustIsWhitespace c = true) : trimChars l = [] := by
  unfold trimChars
  rw [List.dropWhile_eq_nil_iff.mpr fun c hc => h c hc]
  rfl

theorem trim_idem (l : List Char) : trimChars (trimChars l) = trimChars l := by
  unfold trimChars
  have h1 : ((l.dropWhile rustIsWhitespace).rdropWhile rustIsWhitespace).dropWhile
      rustIsWhitespace = (l.dropWhile rustIsWhitespace).rdropWhile rustIsWhitespace := by
    rcases ht : (l.dropWhile rustIsWhitespace).rdropWhile rustIsWhitespace with _ | ⟨a, t⟩
    · rfl
    · obtain ⟨s, hs⟩ := List.rdropWhile_prefix rustIsWhitespace (l.dropWhile rustIsWhitespace)
      rw [ht] at hs
      have hne : l.dropWhile rustIsWhitespace ≠ [] := by
        rw [← hs]; simp
      have hhead : (l.dropWhile rustIsWhitespace).head hne = a := by
        have hq : (l.dropWhile rustIsWhitespace).head? = some a := by
          rw [← hs]; rfl
        rw [List.head?_eq_head hne] at hq
        exact Option.some.inj hq
      have hna := List.head_dropWhile_not rustIsWhitespace l hne
      rw [hhead] at hna
      simp [List.dropWhile_cons, hna]
  rw [h1, List.rdropWhile_idempotent]

theorem isAscii_trim {l : List Char} (h : isAsciiChars l = true) :
    isAsciiChars (trimChars l) = true := by
  unfold isAsciiChars at *
  rw [List.all_eq_true] at *
  exact fun c hc => h c (mem_of_mem_trim hc)

/-
Every character emitted by the formatter is ASCII and not whitespace, so
the parser preamble of ChessMove::from is passed unchanged.
-/

/-- A character that is ASCII and not whitespace. -/
def tameChar (c : Char) : Bool :=
  decide (c.toNat ≤ 127) && !rustIsWhitespace c

theorem all_tame_origin (o : Option ChessCoordinate) (mp : Option ChessPiece) :
    (originChars mp o).all tameChar = true := by
  unfold originChars
  cases o with
  | none => rfl
  | some oc =>
    obtain ⟨of, or⟩ := oc
    cases of with
    | none =>
      cases or with
      | none => rfl
      | some r =>
        cases mp with
        | none => rfl
        | some p => cases p <;> cases r <;> rfl
    | some f =>
      cases or with
      | none => cases f <;> rfl
      | some r =>
        cases mp with
        | none => cases f <;> rfl
        | some p => cases p <;> cases f <;> cases r <;> rfl

theorem format_all_tame (m : ChessMove) : (formatMove m).all tameChar = true := by
  obtain ⟨o, d, mp, cas, pr, cap, chk, mate⟩ := m
  unfold formatMove
  cases cas with
  | some side => cases side <;> cases chk <;> cases mate <;> rfl
  | none =>
    simp only [List.all_append, Bool.and_eq_true]
    refine ⟨⟨⟨⟨⟨?_, ?_⟩, ?_⟩, ?_⟩, ?_⟩, ?_⟩
    · cases mp with
      | none => rfl
      | some p => cases p <;> rfl
    · exact all_tame_origin o mp
    · cases cap <;> rfl
    · cases d with
      | none => rfl
      | some dc =>
        obtain ⟨df, dr⟩ := dc
        cases df with
        | none =>
          cases dr with
          | none => rfl
          | some r => cases r <;> rfl
        | some f =>
          cases dr with
          | none => cases f <;> rfl
          | some r => cases f <;> cases r <;> rfl
    · cases pr with
      | none => rfl
      | some q => cases q <;> rfl
    · cases mate <;> cases chk <;> rfl

theorem ws_format (m : ChessMove) :
    ∀ c ∈ formatMove m, rustIsWhitespace c = false := by
  intro c hc
  have h := format_all_tame m
  rw [List.all_eq_true] at h
  have := h c hc
  unfold tameChar at this
  rw [Bool.and_eq_true, Bool.not_eq_true'] at this
  exact this.2

theorem trim_format (m : ChessMove) : trimChars (formatMove m) = formatMove m :=
  trim_eq_self_of_all (ws_format m)

theorem ascii_format (m : ChessMove) : isAsciiChars (formatMove m) = true := by
  unfold isAsciiChars
  rw [List.all_eq_true]
  intro c hc
  have h := format_all_tame m
  rw [List.all_eq_true] at h
  have := h c hc
  unfold tameChar at this
  rw [Bool.and_eq_true] at this
  exact this.1

/-
Symbolic evaluation of the parser on the formatter's output, one phase at
a time.  The helpers below name the suffixes of a formatted non-castle
move and the corresponding builder updates.
-/

/-- The builder updates performed by the Checks phase. -/
def applyChecks (chk mate : Bool) (b : ChessMoveBuilder) : ChessMoveBuilder :=
  if mate then b.set_is_check_mate true else if chk then b.set_is_check true else b

/-- The builder update performed by the Promotion phase. -/
def applyPromo : Option ChessPiece → ChessMoveBuilder → ChessMoveBuilder
  | none, b => b
  | some q, b => b.set_promotion q

/-- The builder update performed by the Capture phase. -/
def applyCap (cap : Bool) (b : ChessMoveBuilder) : ChessMoveBuilder :=
  if cap then b.set_is_capture true else b

theorem checksPhase_checkChars (chk mate : Bool) (b : ChessMoveBuilder) :
    checksPhase (checkChars chk mate) b = (applyChecks chk mate b).build := by
  cases mate <;> cases chk <;> rfl

theorem promotionPhase_promoChars (pr : Option ChessPiece) (hpr : pr ≠ some ChessPiece.Pawn)
    (chk mate : Bool) (b : ChessMoveBuilder) :
    promotionPhase (promoChars pr ++ checkChars chk mate) b =
      (applyChecks chk mate (applyPromo pr b)).build := by
  cases pr with
  | none => cases mate <;> cases chk <;> rfl
  | some q =>
    cases q <;> first
      | exact absurd rfl hpr
      | cases mate <;> cases chk <;> rfl

theorem destinationResolve_seg (df : ChessFile) (dr : ChessRank) (pr : Option ChessPiece)
    (hpr : pr ≠ some ChessPiece.Pawn) (chk mate : Bool) (b : ChessMoveBuilder) :
    destinationResolve (promoChars pr ++ checkChars chk mate) (some df) (some dr) b =
      (applyChecks chk mate (applyPromo pr
        (b.set_destination { file := some df, rank := some dr }))).build := by
  rcases hl : promoChars pr ++ checkChars chk mate with _ | ⟨c, cs⟩
  · have h1 := List.append_eq_nil.mp hl
    cases pr with
    | some q => simp [promoChars] at h1
    | none =>
      cases mate with
      | true => simp [checkChars] at h1
      | false =>
        cases chk with
        | true => simp [checkChars] at h1
        | false => simp [destinationResolve, ChessCoordinate.is_empty, applyChecks, applyPromo]
  · simp only [destinationResolve, ChessCoordinate.is_empty, Option.isNone_some,
      Bool.and_self, Bool.false_and, Bool.and_false, Bool.false_eq_true, if_false]
    rw [← hl]
    exact promotionPhase_promoChars pr hpr chk mate _

theorem destinationPhase_seg (df : ChessFile) (dr : ChessRank) (pr : Option ChessPiece)
    (hpr : pr ≠ some ChessPiece.Pawn) (chk mate : Bool) (b : ChessMoveBuilder) :
    destinationPhase (df.toChar :: dr.toChar :: (promoChars pr ++ checkChars chk mate))
        none none b =
      (applyChecks chk mate (applyPromo pr
        (b.set_destination { file := some df, rank := some dr }))).build := by
  have key : destinationPhase (df.toChar :: dr.toChar :: (promoChars pr ++ checkChars chk mate))
      none none b =
      destinationResolve (promoChars pr ++ checkChars chk mate) (some df) (some dr) b := by
    simp [destinationPhase, file_fromChar_toChar, rank_fromChar_toChar]
  rw [key]
  exact destinationResolve_seg df dr pr hpr chk mate b

theorem capturePhase_seg (cap : Bool) (df : ChessFile) (dr : ChessRank) (pr : Option ChessPiece)
    (hpr : pr ≠ some ChessPiece.Pawn) (chk mate : Bool) (b : ChessMoveBuilder) :
    capturePhase (capChars cap ++ df.toChar :: dr.toChar :: (promoChars pr ++ checkChars chk mate))
        none none b =
      (applyChecks chk mate (applyPromo pr
        ((applyCap cap b).set_destination { file := some df, rank := some dr }))).build := by
  cases cap with
  | true =>
    simp only [capChars, if_true, List.cons_append, List.nil_append]
    have key : capturePhase ('x' :: df.toChar :: dr.toChar ::
        (promoChars pr ++ checkChars chk mate)) none none b =
        destinationPhase (df.toChar :: dr.toChar :: (promoChars pr ++ checkChars chk mate))
          none none (b.set_is_capture true) := by
      simp [capturePhase]
    rw [key, destinationPhase_seg df dr pr hpr chk mate]
    simp [applyCap]
  | false =>
    simp only [capChars, Bool.false_eq_true, if_false, List.nil_append]
    have key : capturePhase (df.toChar :: dr.toChar :: (promoChars pr ++ checkChars chk mate))
        none none b =
        destinationPhase (df.toChar :: dr.toChar :: (promoChars pr ++ checkChars chk mate))
          none none b := by
      simp [capturePhase, fileChar_ne_x]
    rw [key, destinationPhase_seg df dr pr hpr chk mate]
    simp [applyCap]

theorem originResolve_seg (bf0 : Option ChessFile) (br0 : Option ChessRank)
    (hne : (({ file := bf0, rank := br0 } : ChessCoordinate)).is_empty = false)
    (cap : Bool) (df : ChessFile) (dr : ChessRank) (pr : Option ChessPiece)
    (hpr : pr ≠ some ChessPiece.Pawn) (chk mate : Bool) (b : ChessMoveBuilder) :
    originResolve (capChars cap ++ df.toChar :: dr.toChar :: (promoChars pr ++ checkChars chk mate))
        bf0 br0 b =
      (applyChecks chk mate (applyPromo pr
        ((applyCap cap (b.set_origin { file := bf0, rank := br0 })).set_destination
          { file := some df, rank := some dr }))).build := by
  cases cap with
  | true =>
    have key : originResolve ('x' :: df.toChar :: dr.toChar ::
        (promoChars pr ++ checkChars chk mate)) bf0 br0 b =
        capturePhase ('x' :: df.toChar :: dr.toChar :: (promoChars pr ++ checkChars chk mate))
          none none (b.set_origin { file := bf0, rank := br0 }) := by
      simp [originResolve, hne]
    simp only [capChars, if_true, List.cons_append, List.nil_append]
    rw [key]
    have h2 := capturePhase_seg true df dr pr hpr chk mate
      (b.set_origin { file := bf0, rank := br0 })
    simp only [capChars, if_true, List.cons_append, List.nil_append] at h2
    exact h2
  | false =>
    have key : originResolve (df.toChar :: dr.toChar ::
        (promoChars pr ++ checkChars chk mate)) bf0 br0 b =
        capturePhase (df.toChar :: dr.toChar :: (promoChars pr ++ checkChars chk mate))
          none none (b.set_origin { file := bf0, rank := br0 }) := by
      simp [originResolve, hne, fileChar_ne_eq, fileChar_ne_plus, fileChar_ne_hash]
    simp only [capChars, Bool.false_eq_true, if_false, List.nil_append]
    rw [key]
    have h2 := capturePhase_seg false df dr pr hpr chk mate
      (b.set_origin { file := bf0, rank := br0 })
    simp only [capChars, Bool.false_eq_true, if_false, List.nil_append] at h2
    exact h2

theorem originPhase_fileOnly (f : ChessFile) (cap : Bool) (df : ChessFile) (dr : ChessRank)
    (pr : Option ChessPiece) (hpr : pr ≠ some ChessPiece.Pawn) (chk mate : Bool)
    (b : ChessMoveBuilder) :
    originPhase (f.toChar ::
        (capChars cap ++ df.toChar :: dr.toChar :: (promoChars pr ++ checkChars chk mate)))
        none none b =
      (applyChecks chk mate (applyPromo pr
        ((applyCap cap (b.set_origin { file := some f, rank := none })).set_destination
          { file := some df, rank := some dr }))).build := by
  have step1 : originPhase (f.toChar ::
      (capChars cap ++ df.toChar :: dr.toChar :: (promoChars pr ++ checkChars chk mate)))
      none none b =
      originPhase (capChars cap ++ df.toChar :: dr.toChar ::
        (promoChars pr ++ checkChars chk mate)) (some f) none b := by
    simp [originPhase, file_fromChar_toChar]
  rw [step1]
  have step2 : originPhase (capChars cap ++ df.toChar :: dr.toChar ::
      (promoChars pr ++ checkChars chk mate)) (some f) none b =
      originResolve (capChars cap ++ df.toChar :: dr.toChar ::
        (promoChars pr ++ checkChars chk mate)) (some f) none b := by
    cases cap with
    | true =>
      simp only [capChars, if_true, List.cons_append, List.nil_append]
      simp [originPhase, rank_fromChar_x]
    | false =>
      simp only [capChars, Bool.false_eq_true, if_false, List.nil_append]
      simp [originPhase, rank_fromChar_fileChar]
  rw [step2]
  exact originResolve_seg (some f) none (by rfl) cap df dr pr hpr chk mate b

theorem originPhase_rankOnly (r : ChessRank) (cap : Bool) (df : ChessFile) (dr : ChessRank)
    (pr : Option ChessPiece) (hpr : pr ≠ some ChessPiece.Pawn) (chk mate : Bool)
    (b : ChessMoveBuilder) :
    originPhase (r.toChar ::
        (capChars cap ++ df.toChar :: dr.toChar :: (promoChars pr ++ checkChars chk mate)))
        none none b =
      (applyChecks chk mate (applyPromo pr
        ((applyCap cap (b.set_origin { file := none, rank := some r })).set_destination
          { file := some df, rank := some dr }))).build := by
  have step1 : originPhase (r.toChar ::
      (capChars cap ++ df.toChar :: dr.toChar :: (promoChars pr ++ checkChars chk mate)))
      none none b =
      originResolve (capChars cap ++ df.toChar :: dr.toChar ::
        (promoChars pr ++ checkChars chk mate)) none (some r) b := by
    simp [originPhase, file_fromChar_rankChar, rank_fromChar_toChar]
  rw [step1]
  exact originResolve_seg none (some r) (by rfl) cap df dr pr hpr chk mate b

theorem originPhase_completeOrigin (f : ChessFile) (r : ChessRank) (cap : Bool)
    (df : ChessFile) (dr : ChessRank) (pr : Option ChessPiece)
    (hpr : pr ≠ some ChessPiece.Pawn) (chk mate : Bool) (b : ChessMoveBuilder) :
    originPhase (f.toChar :: r.toChar ::
        (capChars cap ++ df.toChar :: dr.toChar :: (promoChars pr ++ checkChars chk mate)))
        none none b =
      (applyChecks chk mate (applyPromo pr
        ((applyCap cap (b.set_origin { file := some f, rank := some r })).set_destination
          { file := some df, rank := some dr }))).build := by
  have step1 : originPhase (f.toChar :: r.toChar ::
      (capChars cap ++ df.toChar :: dr.toChar :: (promoChars pr ++ checkChars chk mate)))
      none none b =
      originResolve (capChars cap ++ df.toChar :: dr.toChar ::
        (promoChars pr ++ checkChars chk mate)) (some f) (some r) b := by
    simp [originPhase, file_fromChar_toChar, rank_fromChar_toChar]
  rw [step1]
  exact originResolve_seg (some f) (some r) (by rfl) cap df dr pr hpr chk mate b

theorem originPhase_noOrigin (cap : Bool) (df : ChessFile) (dr : ChessRank)
    (pr : Option ChessPiece) (hpr : pr ≠ some ChessPiece.Pawn) (chk mate : Bool)
    (b : ChessMoveBuilder) :
    originPhase (capChars cap ++ df.toChar :: dr.toChar :: (promoChars pr ++ checkChars chk mate))
        none none b =
      (applyChecks chk mate (applyPromo pr
        ((applyCap cap b).set_destination { file := some df, rank := some dr }))).build := by
  cases cap with
  | true =>
    simp only [capChars, if_true, List.cons_append, List.nil_append]
    have key : originPhase ('x' :: df.toChar :: dr.toChar ::
        (promoChars pr ++ checkChars chk mate)) none none b =
        capturePhase ('x' :: df.toChar :: dr.toChar :: (promoChars pr ++ checkChars chk mate))
          none none b := by
      simp [originPhase, file_fromChar_x, rank_fromChar_x, originResolve,
        ChessCoordinate.is_empty]
    rw [key]
    have h2 := capturePhase_seg true df dr pr hpr chk mate b
    simp only [capChars, if_true, List.cons_append, List.nil_append] at h2
    rw [h2]
  | false =>
    -- with no capture marker the parser collects the destination square in
    -- the Origin phase and the lookahead on '=', '+', '#' or the end of
    -- input reinterprets it as the destination
    simp only [capChars, Bool.false_eq_true, if_false, List.nil_append]
    have step1 : originPhase (df.toChar :: dr.toChar ::
        (promoChars pr ++ checkChars chk mate)) none none b =
        originResolve (promoChars pr ++ checkChars chk mate) (some df) (some dr) b := by
      simp [originPhase, file_fromChar_toChar, rank_fromChar_toChar]
    rw [step1]
    rcases hl : promoChars pr ++ checkChars chk mate with _ | ⟨c, cs⟩
    · have h1 := List.append_eq_nil.mp hl
      cases pr with
      | some q => simp [promoChars] at h1
      | none =>
        cases mate with
        | true => simp [checkChars] at h1
        | false =>
          cases chk with
          | true => simp [checkChars] at h1
          | false =>
            simp [originResolve, ChessCoordinate.is_empty, applyChecks, applyPromo, applyCap]
    · cases pr with
      | some q =>
        have hc : c = '=' := by
          have : '=' :: q.toChar :: checkChars chk mate = c :: cs := hl
          exact (List.cons_eq_cons.mp this).1.symm
        subst hc
        have key : originResolve ('=' :: cs) (some df) (some dr) b =
            promotionPhase ('=' :: cs)
              (b.set_destination { file := some df, rank := some dr }) := by
          simp [originResolve, ChessCoordinate.is_empty]
        rw [key, ← hl]
        have h3 := promotionPhase_promoChars (some q) hpr chk mate
          (b.set_destination { file := some df, rank := some dr })
        rw [h3]
        simp [applyCap]
      | none =>
        cases mate with
        | true =>
          have hc : c = '#' ∧ cs = [] := by
            have : ('#' :: [] : List Char) = c :: cs := hl
            exact ⟨(List.cons_eq_cons.mp this).1.symm, (List.cons_eq_cons.mp this).2.symm⟩
          obtain ⟨hc, hcs⟩ := hc
          subst hc; subst hcs
          simp [originResolve, ChessCoordinate.is_empty, checksPhase, applyChecks,
            applyPromo, applyCap]
        | false =>
          cases chk with
          | true =>
            have hc : c = '+' ∧ cs = [] := by
              have : ('+' :: [] : List Char) = c :: cs := hl
              exact ⟨(List.cons_eq_cons.mp this).1.symm, (List.cons_eq_cons.mp this).2.symm⟩
            obtain ⟨hc, hcs⟩ := hc
            subst hc; subst hcs
            simp [originResolve, ChessCoordinate.is_empty, checksPhase, applyChecks,
              applyPromo, applyCap]
          | false => simp [promoChars, checkChars] at hl

theorem checkCastlePhase_skip {c : Char} (cs : List Char) (b : ChessMoveBuilder)
    (h1 : c ≠ 'O') (h2 : c ≠ '-') :
    checkCastlePhase (c :: cs) 0 b = pieceTypePhase (c :: cs) b := by
  simp [checkCastlePhase, h1, h2]

theorem pieceTypePhase_skip {c : Char} (cs : List Char) (b : ChessMoveBuilder)
    (h : ChessPiece.fromChar c = none) :
    pieceTypePhase (c :: cs) b = originPhase (c :: cs) none none b := by
  simp [pieceTypePhase, h]

theorem pieceTypePhase_piece (p : ChessPiece) (hp : p ≠ ChessPiece.Pawn) (cs : List Char)
    (b : ChessMoveBuilder) :
    pieceTypePhase (p.toChar :: cs) b = originPhase cs none none (b.set_moving_piece p) := by
  simp [pieceTypePhase, piece_fromChar_toChar p hp]

theorem fromChars_format (m : ChessMove) (h : formatMove m ≠ []) :
    ChessMove.fromChars (formatMove m) =
      checkCastlePhase (formatMove m) 0 ChessMoveBuilder.new := by
  unfold ChessMove.fromChars
  rw [trim_format]
  simp [h, ascii_format, List.length_eq_zero]

theorem applyAll_eq (o : Option ChessCoordinate) (mpB : Option ChessPiece)
    (pr : Option ChessPiece) (cap chk mate : Bool) (df : ChessFile) (dr : ChessRank)
    (hcm : (chk && mate) = false) :
    applyChecks chk mate (applyPromo pr ((applyCap cap
      ({ origin := o, destination := none, moving_piece := mpB, castle := none,
         promotion := none, is_capture := false, is_check := false,
         is_check_mate := false } : ChessMoveBuilder)).set_destination
        { file := some df, rank := some dr })) =
    { origin := o, destination := some { file := some df, rank := some dr },
      moving_piece := mpB, castle := none, promotion := pr, is_capture := cap,
      is_check := chk, is_check_mate := mate } := by
  cases mate with
  | true =>
    cases chk with
    | true => simp at hcm
    | false => cases cap <;> cases pr <;> rfl
  | false => cases chk <;> cases cap <;> cases pr <;> rfl

theorem build_ok_record (o : Option ChessCoordinate) (mpB : Option ChessPiece)
    (pr : Option ChessPiece) (cap chk mate : Bool) (df : ChessFile) (dr : ChessRank)
    (hcm : (chk && mate) = false)
    (hpawncap : (decide (mpB.getD ChessPiece.Pawn = ChessPiece.Pawn) && cap &&
      (match o with
       | some orig => orig.file.isNone
       | none => true)) = false) :
    ({ origin := o, destination := some { file := some df, rank := some dr },
       moving_piece := mpB, castle := none, promotion := pr, is_capture := cap,
       is_check := chk, is_check_mate := mate } : ChessMoveBuilder).build =
    .ok { origin := o, destination := some { file := some df, rank := some dr },
          moving_piece := some (mpB.getD ChessPiece.Pawn), castle := none, promotion := pr,
          is_capture := cap, is_check := chk, is_check_mate := mate } := by
  unfold ChessMoveBuilder.build
  simp [hcm, hpawncap, ChessCoordinate.is_complete]

/-- The invariants that every move returned by ChessMoveBuilder::build
satisfies: the moving piece is set, check and checkmate are not both set,
castling excludes capture and promotion, the destination is complete when
present and a castle is present otherwise, and a pawn capture carries an
origin file. -/
def BuildOk (m : ChessMove) : Bool :=
  m.moving_piece.isSome &&
  !(m.is_check && m.is_check_mate) &&
  !(m.castle.isSome && (m.is_capture || m.promotion.isSome)) &&
  (match m.destination with
   | some dc => dc.is_complete
   | none => m.castle.isSome) &&
  (!(decide (m.moving_piece = some ChessPiece.Pawn) && m.is_capture) ||
   (match m.origin with
    | some oc => oc.file.isSome
    | none => false))

theorem build_BuildOk (b : ChessMoveBuilder) (m : ChessMove) (h : b.build = .ok m) :
    BuildOk m = true := by
  simp only [ChessMoveBuilder.build] at h
  by_cases h1 : (b.is_check && b.is_check_mate) = true
  · rw [if_pos h1] at h; exact Except.noConfusion h
  rw [if_neg h1] at h
  by_cases h2 : (b.castle.isSome && (b.is_capture || b.promotion.isSome)) = true
  · rw [if_pos h2] at h; exact Except.noConfusion h
  rw [if_neg h2] at h
  by_cases h3 : (match b.destination with
                 | some dest => !dest.is_complete
                 | none => false) = true
  · rw [if_pos h3] at h; exact Except.noConfusion h
  rw [if_neg h3] at h
  by_cases h4 : (b.destination.isNone && b.castle.isNone) = true
  · rw [if_pos h4] at h; exact Except.noConfusion h
  rw [if_neg h4] at h
  by_cases h5 : (decide (b.moving_piece.getD ChessPiece.Pawn = ChessPiece.Pawn) &&
      b.is_capture &&
      (match b.origin with
       | some orig => orig.file.isNone
       | none => true)) = true
  · rw [if_pos h5] at h; exact Except.noConfusion h
  rw [if_neg h5] at h
  injection h with hm
  subst hm
  simp only [BuildOk, Option.isSome_some, Bool.true_and, Bool.and_eq_true]
  refine ⟨⟨⟨?_, ?_⟩, ?_⟩, ?_⟩
  · simp [Bool.eq_false_iff.mpr h1]
  · simp [Bool.eq_false_iff.mpr h2]
  · rcases hd : b.destination with _ | dc
    · rw [hd] at h4
      simp only [Option.isNone_none, Bool.true_and, Bool.not_eq_true] at h4
      rcases hcas : b.castle with _ | side
      · rw [hcas] at h4; simp at h4
      · rfl
    · rw [hd] at h3
      simp only [Bool.not_eq_true] at h3
      simpa using h3
  · by_cases hp : (decide (b.moving_piece.getD ChessPiece.Pawn = ChessPiece.Pawn) &&
        b.is_capture) = true
    · have h5f := Bool.eq_false_iff.mpr h5
      rw [hp, Bool.true_and] at h5f
      rcases ho : b.origin with _ | oc
      · rw [ho] at h5f; simp at h5f
      · rw [ho] at h5f
        have h5g : oc.file.isNone = false := h5f
        have hfile : oc.file.isSome = true := by
          rcases hf : oc.file with _ | f
          · rw [hf] at h5g; simp at h5g
          · rfl
        simp [hfile]
    · have hp2 := Bool.eq_false_iff.mpr hp
      have hsome : decide ((some (b.moving_piece.getD ChessPiece.Pawn) : Option ChessPiece) =
          some ChessPiece.Pawn) = decide (b.moving_piece.getD ChessPiece.Pawn =
            ChessPiece.Pawn) := by
        simp
      rw [hsome, hp2]
      simp

theorem movePieceChars_pawn : movePieceChars (some ChessPiece.Pawn) = [] := rfl

theorem movePieceChars_piece (p : ChessPiece) (hp : p ≠ ChessPiece.Pawn) :
    movePieceChars (some p) = [p.toChar] := by
  cases p <;> first | exact absurd rfl hp | rfl

theorem originChars_none (mp : Option ChessPiece) : originChars mp none = [] := rfl

theorem originChars_fileOnly (mp : Option ChessPiece) (f : ChessFile) :
    originChars mp (some { file := some f, rank := none }) = [f.toChar] := by
  simp [originChars]

theorem originChars_rankOnly (p : ChessPiece) (hp : p ≠ ChessPiece.Pawn) (r : ChessRank) :
    originChars (some p) (some { file := none, rank := some r }) = [r.toChar] := by
  simp [originChars, hp]

theorem originChars_full (p : ChessPiece) (hp : p ≠ ChessPiece.Pawn) (f : ChessFile)
    (r : ChessRank) :
    originChars (some p) (some { file := some f, rank := some r }) = [f.toChar, r.toChar] := by
  simp [originChars, hp]

theorem destChars_complete (df : ChessFile) (dr : ChessRank) :
    destChars (some { file := some df, rank := some dr }) = [df.toChar, dr.toChar] := by
  simp [destChars]

theorem formatMove_ne_nil_of_dest (m : ChessMove) (hcas : m.castle = none) (df : ChessFile)
    (dr : ChessRank) (hd : m.destination = some { file := some df, rank := some dr }) :
    formatMove m ≠ [] := by
  unfold formatMove
  rw [hcas, hd]
  simp [destChars_complete]

/-- The moves whose structure the formatter can represent faithfully: a
castling move must carry the King, no coordinates and no check flags (the
parser always reconstructs exactly that), and a non-castling move must not
promote to a pawn, must not have an empty origin coordinate and, when the
mover is a pawn, may record only an origin file, since the formatter never
prints pawn origin ranks. -/
def Canonical (m : ChessMove) : Bool :=
  match m.castle with
  | some _ =>
    decide (m.moving_piece = some ChessPiece.King) && decide (m.origin = none) &&
    decide (m.destination = none) && !m.is_check && !m.is_check_mate
  | none =>
    !(decide (m.promotion = some ChessPiece.Pawn)) &&
    (match m.origin with
     | none => true
     | some oc =>
       (oc.file.isSome || oc.rank.isSome) &&
       (if m.moving_piece = some ChessPiece.Pawn then oc.file.isSome && oc.rank.isNone
        else true))

/-- Round trip through the formatter and parser for a non-castling move
whose shape the formatter represents faithfully. -/
theorem roundtrip_noncastle (o : Option ChessCoordinate) (p : ChessPiece)
    (pr : Option ChessPiece) (cap chk mate : Bool) (df : ChessFile) (dr : ChessRank)
    (hcm : (chk && mate) = false)
    (hpr : pr ≠ some ChessPiece.Pawn)
    (hpc : (decide (p = ChessPiece.Pawn) && cap &&
      (match o with
       | some orig => orig.file.isNone
       | none => true)) = false)
    (horigin : o = none ∨ (∃ f, o = some { file := some f, rank := none }) ∨
      (p ≠ ChessPiece.Pawn ∧ ∃ r, o = some { file := none, rank := some r }) ∨
      (p ≠ ChessPiece.Pawn ∧ ∃ f r, o = some { file := some f, rank := some r })) :
    ChessMove.fromChars (formatMove
      { origin := o, destination := some { file := some df, rank := some dr },
        moving_piece := some p, castle := none, promotion := pr, is_capture := cap,
        is_check := chk, is_check_mate := mate }) =
    .ok { origin := o, destination := some { file := some df, rank := some dr },
          moving_piece := some p, castle := none, promotion := pr, is_capture := cap,
          is_check := chk, is_check_mate := mate } := by
  have hnn : formatMove
      { origin := o, destination := some { file := some df, rank := some dr },
        moving_piece := some p, castle := none, promotion := pr, is_capture := cap,
        is_check := chk, is_check_mate := mate } ≠ [] :=
    formatMove_ne_nil_of_dest _ rfl df dr rfl
  rw [fromChars_format _ hnn]
  by_cases hp : p = ChessPiece.Pawn
  · subst hp
    rcases horigin with ho | ⟨f, ho⟩ | ⟨hne, _⟩ | ⟨hne, _⟩
    · subst ho
      simp only [formatMove, movePieceChars_pawn, originChars_none, destChars_complete,
        List.nil_append, List.append_assoc, List.cons_append, List.singleton_append]
      cases cap with
      | true => simp at hpc
      | false =>
        simp only [capChars, Bool.false_eq_true, if_false, List.nil_append]
        rw [checkCastlePhase_skip _ _ (fileChar_ne_O df) (fileChar_ne_dash df)]
        rw [pieceTypePhase_skip _ _ (piece_fromChar_fileChar df)]
        have h := originPhase_noOrigin false df dr pr hpr chk mate ChessMoveBuilder.new
        simp only [capChars, Bool.false_eq_true, if_false, List.nil_append] at h
        rw [h]
        have hrec : ChessMoveBuilder.new =
            ({ origin := none, destination := none, moving_piece := none, castle := none,
               promotion := none, is_capture := false, is_check := false,
               is_check_mate := false } : ChessMoveBuilder) := rfl
        rw [hrec, applyAll_eq none none pr false chk mate df dr hcm]
        rw [build_ok_record none none pr false chk mate df dr hcm (by simp)]
        rfl
    · subst ho
      simp only [formatMove, movePieceChars_pawn, originChars_fileOnly, destChars_complete,
        List.nil_append, List.append_assoc, List.cons_append, List.singleton_append]
      rw [checkCastlePhase_skip _ _ (fileChar_ne_O f) (fileChar_ne_dash f)]
      rw [pieceTypePhase_skip _ _ (piece_fromChar_fileChar f)]
      rw [originPhase_fileOnly f cap df dr pr hpr chk mate ChessMoveBuilder.new]
      have hrec : ChessMoveBuilder.new.set_origin { file := some f, rank := none } =
          ({ origin := some { file := some f, rank := none }, destination := none,
             moving_piece := none, castle := none, promotion := none, is_capture := false,
             is_check := false, is_check_mate := false } : ChessMoveBuilder) := rfl
      rw [hrec, applyAll_eq _ none pr cap chk mate df dr hcm]
      rw [build_ok_record _ none pr cap chk mate df dr hcm (by simp)]
      rfl
    · exact absurd rfl hne
    · exact absurd rfl hne
  · rcases horigin with ho | ⟨f, ho⟩ | ⟨-, r, ho⟩ | ⟨-, f, r, ho⟩
    · subst ho
      simp only [formatMove, movePieceChars_piece p hp, originChars_none, destChars_complete,
        List.nil_append, List.append_assoc, List.cons_append, List.singleton_append]
      rw [checkCastlePhase_skip _ _ (pieceChar_ne_O p) (pieceChar_ne_dash p)]
      rw [pieceTypePhase_piece p hp]
      rw [originPhase_noOrigin cap df dr pr hpr chk mate (ChessMoveBuilder.new.set_moving_piece p)]
      have hrec : ChessMoveBuilder.new.set_moving_piece p =
          ({ origin := none, destination := none, moving_piece := some p, castle := none,
             promotion := none, is_capture := false, is_check := false,
             is_check_mate := false } : ChessMoveBuilder) := rfl
      rw [hrec, applyAll_eq none (some p) pr cap chk mate df dr hcm]
      rw [build_ok_record none (some p) pr cap chk mate df dr hcm (by simp [hp])]
      rfl
    · subst ho
      simp only [formatMove, movePieceChars_piece p hp, originChars_fileOnly,
        destChars_complete, List.nil_append, List.append_assoc, List.cons_append,
        List.singleton_append]
      rw [checkCastlePhase_skip _ _ (pieceChar_ne_O p) (pieceChar_ne_dash p)]
      rw [pieceTypePhase_piece p hp]
      rw [originPhase_fileOnly f cap df dr pr hpr chk mate
        (ChessMoveBuilder.new.set_moving_piece p)]
      have hrec : (ChessMoveBuilder.new.set_moving_piece p).set_origin
          { file := some f, rank := none } =
          ({ origin := some { file := some f, rank := none }, destination := none,
             moving_piece := some p, castle := none, promotion := none, is_capture := false,
             is_check := false, is_check_mate := false } : ChessMoveBuilder) := rfl
      rw [hrec, applyAll_eq _ (some p) pr cap chk mate df dr hcm]
      rw [build_ok_record _ (some p) pr cap chk mate df dr hcm (by simp [hp])]
      rfl
    · subst ho
      simp only [formatMove, movePieceChars_piece p hp, originChars_rankOnly p hp,
        destChars_complete, List.nil_append, List.append_assoc, List.cons_append,
        List.singleton_append]
      rw [checkCastlePhase_skip _ _ (pieceChar_ne_O p) (pieceChar_ne_dash p)]
      rw [pieceTypePhase_piece p hp]
      rw [originPhase_rankOnly r cap df dr pr hpr chk mate
        (ChessMoveBuilder.new.set_moving_piece p)]
      have hrec : (ChessMoveBuilder.new.set_moving_piece p).set_origin
          { file := none, rank := some r } =
          ({ origin := some { file := none, rank := some r }, destination := none,
             moving_piece := some p, castle := none, promotion := none, is_capture := false,
             is_check := false, is_check_mate := false } : ChessMoveBuilder) := rfl
      rw [hrec, applyAll_eq _ (some p) pr cap chk mate df dr hcm]
      rw [build_ok_record _ (some p) pr cap chk mate df dr hcm (by simp [hp])]
      rfl
    · subst ho
      simp only [formatMove, movePieceChars_piece p hp, originChars_full p hp,
        destChars_complete, List.nil_append, List.append_assoc, List.cons_append,
        List.singleton_append]
      rw [checkCastlePhase_skip _ _ (pieceChar_ne_O p) (pieceChar_ne_dash p)]
      rw [pieceTypePhase_piece p hp]
      rw [originPhase_completeOrigin f r cap df dr pr hpr chk mate
        (ChessMoveBuilder.new.set_moving_piece p)]
      have hrec : (ChessMoveBuilder.new.set_moving_piece p).set_origin
          { file := some f, rank := some r } =
          ({ origin := some { file := some f, rank := some r }, destination := none,
             moving_piece := some p, castle := none, promotion := none, is_capture := false,
             is_check := false, is_check_mate := false } : ChessMoveBuilder) := rfl
      rw [hrec, applyAll_eq _ (some p) pr cap chk mate df dr hcm]
      rw [build_ok_record _ (some p) pr cap chk mate df dr hcm (by simp [hp])]
      rfl

/-- Round trip through the formatter and parser for every canonical move
that satisfies the builder invariants. -/
theorem roundtrip_canonical (m : ChessMove) (hb : BuildOk m = true) (hc : Canonical m = true) :
    ChessMove.fromChars (formatMove m) = .ok m := by
  obtain ⟨o, d, mp, cas, pr, cap, chk, mate⟩ := m
  cases cas with
  | some side =>
    simp [Canonical] at hc
    simp [BuildOk] at hb
    obtain ⟨⟨⟨-, hcap, hprn⟩, -⟩, -⟩ := hb
    obtain ⟨⟨⟨⟨hmp, ho⟩, hd⟩, hchk⟩, hmate⟩ := hc
    subst hmp; subst ho; subst hd; subst hchk; subst hmate; subst hcap; subst hprn
    cases side <;> rfl
  | none =>
    simp [Canonical] at hc
    obtain ⟨hprne, horig⟩ := hc
    rcases mp with _ | p
    · simp [BuildOk] at hb
    rcases d with _ | dc
    · simp [BuildOk] at hb
    obtain ⟨df0, dr0⟩ := dc
    rcases df0 with _ | df
    · simp [BuildOk, ChessCoordinate.is_complete] at hb
    rcases dr0 with _ | dr
    · simp [BuildOk, ChessCoordinate.is_complete] at hb
    simp [BuildOk, ChessCoordinate.is_complete] at hb
    obtain ⟨hcm0, hdisj⟩ := hb
    have hcm : (chk && mate) = false := by
      rcases hcm0 with h | h <;> simp [h]
    have horigin2 : o = none ∨ (∃ f, o = some { file := some f, rank := none }) ∨
        (p ≠ ChessPiece.Pawn ∧ ∃ r, o = some { file := none, rank := some r }) ∨
        (p ≠ ChessPiece.Pawn ∧ ∃ f r, o = some { file := some f, rank := some r }) := by
      rcases o with _ | ⟨of, or⟩
      · exact Or.inl rfl
      · have h' : ((of.isSome || or.isSome) &&
            (!decide ((some p : Option ChessPiece) = some ChessPiece.Pawn) ||
              of.isSome && or.isNone)) = true := horig
        simp only [Bool.and_eq_true, Bool.or_eq_true, Option.some.injEq] at h'
        obtain ⟨hne, hpawn⟩ := h'
        by_cases hp : p = ChessPiece.Pawn
        · subst hp
          rcases hpawn with h | h
          · simp at h
          · obtain ⟨hf, hr⟩ := h
            rcases of with _ | f
            · simp at hf
            rcases or with _ | r
            · exact Or.inr (Or.inl ⟨f, rfl⟩)
            · simp at hr
        · rcases of with _ | f <;> rcases or with _ | r
          · simp at hne
          · exact Or.inr (Or.inr (Or.inl ⟨hp, r, rfl⟩))
          · exact Or.inr (Or.inl ⟨f, rfl⟩)
          · exact Or.inr (Or.inr (Or.inr ⟨hp, f, r, rfl⟩))
    rcases horigin2 with ho | ⟨f, ho⟩ | ⟨hpne, r, ho⟩ | ⟨hpne, f, r, ho⟩
    · subst ho
      refine roundtrip_noncastle none p pr cap chk mate df dr hcm hprne ?_ (Or.inl rfl)
      have hd2 : ¬p = ChessPiece.Pawn ∨ cap = false := by
        rcases hdisj with h | h
        · exact h
        · exact absurd h (by simp)
      rcases hd2 with h | h <;> simp [h]
    · subst ho
      refine roundtrip_noncastle _ p pr cap chk mate df dr hcm hprne ?_
        (Or.inr (Or.inl ⟨f, rfl⟩))
      simp
    · subst ho
      refine roundtrip_noncastle _ p pr cap chk mate df dr hcm hprne ?_
        (Or.inr (Or.inr (Or.inl ⟨hpne, r, rfl⟩)))
      simp [hpne]
    · subst ho
      refine roundtrip_noncastle _ p pr cap chk mate df dr hcm hprne ?_
        (Or.inr (Or.inr (Or.inr ⟨hpne, f, r, rfl⟩)))
      simp

/-
The claims.
-/

/-- C1, counterexample: the claim fails as stated.  A builder that sets
only a kingside castle builds successfully, with the moving piece
defaulted to Pawn; its rendering "O-O" parses back to a castle whose
moving piece is King, so parse(format(m)) differs from m. -/
theorem c1_round_trip_counterexample :
    (ChessMoveBuilder.new.set_castle .KingsideCastle).build =
      .ok { origin := none, destination := none, moving_piece := some .Pawn,
            castle := some .KingsideCastle, promotion := none, is_capture := false,
            is_check := false, is_check_mate := false } ∧
    ChessMove.fromChars (formatMove
      { origin := none, destination := none, moving_piece := some .Pawn,
        castle := some .KingsideCastle, promotion := none, is_capture := false,
        is_check := false, is_check_mate := false }) ≠
      .ok { origin := none, destination := none, moving_piece := some .Pawn,
            castle := some .KingsideCastle, promotion := none, is_capture := false,
            is_check := false, is_check_mate := false } := by
  constructor
  · rfl
  · decide

/-- C1, amended: for every ChessMove m successfully produced by the
builder that is canonical (castles carry the King, no coordinates and no
check flags; otherwise the promotion is not a pawn and the origin, when
present, is non-empty and for a pawn mover consists of a file only),
rendering m and parsing the result yields m back. -/
theorem c1_round_trip (b : ChessMoveBuilder) (m : ChessMove) (h : b.build = .ok m)
    (hc : Canonical m = true) :
    ChessMove.fromChars (formatMove m) = .ok m :=
  roundtrip_canonical m (build_BuildOk b m h) hc

/-- C1, witness: the round trip at the concrete move exd5. -/
theorem c1_round_trip_witness :
    ChessMove.fromChars (formatMove
      { origin := some { file := some .E, rank := none },
        destination := some { file := some .D, rank := some .R5 },
        moving_piece := some .Pawn, castle := none, promotion := none,
        is_capture := true, is_check := false, is_check_mate := false }) =
    .ok { origin := some { file := some .E, rank := none },
          destination := some { file := some .D, rank := some .R5 },
          moving_piece := some .Pawn, castle := none, promotion := none,
          is_capture := true, is_check := false, is_check_mate := false } :=
  c1_round_trip
    (((ChessMoveBuilder.new.set_origin { file := some .E, rank := none }).set_destination
      { file := some .D, rank := some .R5 }).set_is_capture true)
    _ (by rfl) (by rfl)

/-- C2: the parser maps "e4", "exd5", "Nbxd5+" and "e8=Q#" to exactly the
claimed structured moves, with every unmentioned field absent or false. -/
theorem c2_parse_examples :
    ChessMove.fromChars ['e', '4'] =
      .ok { origin := none, destination := some { file := some .E, rank := some .R4 },
            moving_piece := some .Pawn, castle := none, promotion := none,
            is_capture := false, is_check := false, is_check_mate := false } ∧
    ChessMove.fromChars ['e', 'x', 'd', '5'] =
      .ok { origin := some { file := some .E, rank := none },
            destination := some { file := some .D, rank := some .R5 },
            moving_piece := some .Pawn, castle := none, promotion := none,
            is_capture := true, is_check := false, is_check_mate := false } ∧
    ChessMove.fromChars ['N', 'b', 'x', 'd', '5', '+'] =
      .ok { origin := some { file := some .B, rank := none },
            destination := some { file := some .D, rank := some .R5 },
            moving_piece := some .Knight, castle := none, promotion := none,
            is_capture := true, is_check := true, is_check_mate := false } ∧
    ChessMove.fromChars ['e', '8', '=', 'Q', '#'] =
      .ok { origin := none, destination := some { file := some .E, rank := some .R8 },
            moving_piece := some .Pawn, castle := none, promotion := some .Queen,
            is_capture := false, is_check := false, is_check_mate := true } :=
  ⟨rfl, rfl, rfl, rfl⟩

/-- The move produced by parsing a kingside castle. -/
def kingsideMove : ChessMove :=
  { origin := none, destination := none, moving_piece := some .King,
    castle := some .KingsideCastle, promotion := none, is_capture := false,
    is_check := false, is_check_mate := false }

/-- The move produced by parsing a queenside castle. -/
def queensideMove : ChessMove :=
  { origin := none, destination := none, moving_piece := some .King,
    castle := some .QueensideCastle, promotion := none, is_capture := false,
    is_check := false, is_check_mate := false }

/-- On a string of castle characters, the CheckCastle phase only counts the
'O' characters and resolves at the end of input. -/
theorem checkCastlePhase_counts (l : List Char) (hl : ∀ c ∈ l, c = 'O' ∨ c = '-')
    (count : Nat) :
    checkCastlePhase l count ChessMoveBuilder.new =
      (if count + l.count 'O' = 3 then .ok queensideMove
       else if count + l.count 'O' = 2 then .ok kingsideMove
       else .error .InvalidMove) := by
  induction l generalizing count with
  | nil =>
    simp only [checkCastlePhase, List.count_nil, Nat.add_zero]
    by_cases h3 : count = 3
    · simp [h3, queensideMove]
      rfl
    · by_cases h2 : count = 2
      · simp [h3, h2, kingsideMove]
        rfl
      · simp [h3, h2]
  | cons c cs ih =>
    rcases hl c (List.mem_cons_self c cs) with hO | hD
    · subst hO
      have step : checkCastlePhase ('O' :: cs) count ChessMoveBuilder.new =
          checkCastlePhase cs (count + 1) ChessMoveBuilder.new := by
        simp [checkCastlePhase]
      rw [step, ih (fun x hx => hl x (List.mem_cons_of_mem _ hx)) (count + 1)]
      have hcount : ('O' :: cs).count 'O' = cs.count 'O' + 1 := by
        simp [List.count_cons]
      rw [hcount]
      have harith : count + 1 + cs.count 'O' = count + (cs.count 'O' + 1) := by omega
      rw [harith]
    · subst hD
      have step : checkCastlePhase ('-' :: cs) count ChessMoveBuilder.new =
          checkCastlePhase cs count ChessMoveBuilder.new := by
        simp [checkCastlePhase]
      rw [step, ih (fun x hx => hl x (List.mem_cons_of_mem _ hx)) count]
      have hcount : ('-' :: cs).count 'O' = cs.count 'O' := by
        simp [List.count_cons]
      rw [hcount]

/-- C3, counterexample: the empty string vacuously consists of only 'O'
and '-' characters and has zero 'O' characters, yet the parser reports
MissingMoveData there, not the InvalidMove the claim requires for counts
other than 2 and 3. -/
theorem c3_castle_counterexample :
    ChessMove.fromChars [] = .error .MissingMoveData ∧
    (Except.error .MissingMoveData : Except ChessMoveBuildError ChessMove) ≠
      .error .InvalidMove :=
  ⟨rfl, by decide⟩

/-- C3, amended: for every non-empty string of 'O' and '-' characters the
parser yields the kingside castle exactly on two 'O' characters, the
queenside castle exactly on three, and InvalidMove otherwise; in
particular on "O-O", "O-O-O", "O", "O-" and "O-O-O-O". -/
theorem c3_castle_counting :
    (∀ l : List Char, l ≠ [] → (∀ c ∈ l, c = 'O' ∨ c = '-') →
      ChessMove.fromChars l =
        (if l.count 'O' = 2 then .ok kingsideMove
         else if l.count 'O' = 3 then .ok queensideMove
         else .error .InvalidMove)) ∧
    ChessMove.fromChars ['O', '-', 'O'] = .ok kingsideMove ∧
    ChessMove.fromChars ['O', '-', 'O', '-', 'O'] = .ok queensideMove ∧
    ChessMove.fromChars ['O'] = .error .InvalidMove ∧
    ChessMove.fromChars ['O', '-'] = .error .InvalidMove ∧
    ChessMove.fromChars ['O', '-', 'O', '-', 'O', '-', 'O'] = .error .InvalidMove := by
  refine ⟨?_, rfl, rfl, rfl, rfl, rfl⟩
  intro l hne hl
  have hascii : isAsciiChars l = true := by
    unfold isAsciiChars
    rw [List.all_eq_true]
    intro c hc
    rcases hl c hc with h | h <;> subst h <;> decide
  have htrim : trimChars l = l := by
    refine trim_eq_self_of_all ?_
    intro c hc
    rcases hl c hc with h | h <;> subst h <;> rfl
  unfold ChessMove.fromChars
  rw [if_neg (by simpa [List.length_eq_zero] using hne), if_neg (by simp [hascii]), htrim]
  rw [checkCastlePhase_counts l hl 0]
  simp only [Nat.zero_add]
  by_cases h2 : l.count 'O' = 2
  · simp [h2]
  · by_cases h3 : l.count 'O' = 3 <;> simp [h2, h3]

/-- C3, witness: the general statement applied to the string "O--O". -/
theorem c3_castle_counting_witness :
    ChessMove.fromChars ['O', '-', '-', 'O'] = .ok kingsideMove :=
  (c3_castle_counting.1 ['O', '-', '-', 'O'] (by decide) (by decide)).trans (by decide)

/-- C4: the empty string is MissingMoveData; any string containing a
non-ASCII character is InvalidInputFormat, before any grammar processing;
and the grammar violations "Pe4", "Bk4" and "BF0" are InvalidMove. -/
theorem c4_error_classification :
    ChessMove.fromChars [] = .error .MissingMoveData ∧
    (∀ (l : List Char) (c : Char), c ∈ l → ¬(c.toNat ≤ 127) →
      ChessMove.fromChars l = .error .InvalidInputFormat) ∧
    ChessMove.fromChars ['P', 'e', '4'] = .error .InvalidMove ∧
    ChessMove.fromChars ['B', 'k', '4'] = .error .InvalidMove ∧
    ChessMove.fromChars ['B', 'F', '0'] = .error .InvalidMove := by
  refine ⟨rfl, ?_, rfl, rfl, rfl⟩
  intro l c hc hna
  have hne : l ≠ [] := List.ne_nil_of_mem hc
  have hascii : isAsciiChars l = false := by
    cases hall : isAsciiChars l with
    | false => rfl
    | true =>
      unfold isAsciiChars at hall
      rw [List.all_eq_true] at hall
      exact absurd (by simpa using hall c hc) hna
  unfold ChessMove.fromChars
  rw [if_neg (by simpa [List.length_eq_zero] using hne)]
  simp [hascii]

/-- C4, witness: the general non-ASCII statement applied to a thinking
emoji. -/
theorem c4_error_classification_witness :
    ChessMove.fromChars ['🤔'] = .error .InvalidInputFormat :=
  c4_error_classification.2.1 ['🤔'] '🤔' (by decide) (by decide)

/-- C9, counterexample: the claim quantifies over every trailing character
other than 'O' and '-', but a non-ASCII trailing character makes the whole
input non-ASCII, so parsing fails with InvalidInputFormat instead of
producing a castle. -/
theorem c9_counterexample :
    ChessMove.fromChars ['O', '-', 'O', '🤔'] = .error .InvalidInputFormat ∧
    (Except.error .InvalidInputFormat : Except ChessMoveBuildError ChessMove) ≠
      .ok kingsideMove :=
  ⟨rfl, by decide⟩

/-- C9, amended: for every ASCII character c other than 'O' and '-', the
input "O-O" followed by c parses to the plain kingside castle: the
character resolving the castle phase is consumed and discarded, never
interpreted as a capture, check or checkmate marker. -/
theorem c9_castle_trailing_char (c : Char) (hascii : c.toNat ≤ 127) (hO : c ≠ 'O')
    (hD : c ≠ '-') :
    ChessMove.fromChars ['O', '-', 'O', c] = .ok kingsideMove := by
  unfold ChessMove.fromChars
  rw [if_neg (by simp), if_neg (by simp [isAsciiChars, hascii])]
  by_cases hws : rustIsWhitespace c = true
  · have ht : trimChars ['O', '-', 'O', c] = ['O', '-', 'O'] := by
      unfold trimChars List.rdropWhile
      simp [List.dropWhile, hws]
      decide
    rw [ht]
    rfl
  · have hwsf : rustIsWhitespace c = false := Bool.eq_false_iff.mpr hws
    have ht : trimChars ['O', '-', 'O', c] = ['O', '-', 'O', c] := by
      refine trim_eq_self_of_all ?_
      intro x hx
      simp only [List.mem_cons, List.not_mem_nil, or_false] at hx
      rcases hx with rfl | rfl | rfl | rfl
      · rfl
      · rfl
      · rfl
      · exact hwsf
    rw [ht]
    have hstep : checkCastlePhase ['O', '-', 'O', c] 0 ChessMoveBuilder.new =
        checkCastlePhase [c] 2 ChessMoveBuilder.new := by
      simp [checkCastlePhase]
    rw [hstep]
    simp [checkCastlePhase, hO, hD]
    rfl

/-- C9, witness: the amended statement at the trailing character '+'. -/
theorem c9_castle_trailing_char_witness :
    ChessMove.fromChars ['O', '-', 'O', '+'] = .ok kingsideMove :=
  c9_castle_trailing_char '+' (by decide) (by decide) (by decide)

/-- C10, counterexample: a string consisting of the single non-breaking
space, a whitespace character, is non-ASCII, so the parser reports
InvalidInputFormat rather than the InvalidMove the claim requires for
whitespace-only strings. -/
theorem c10_counterexample :
    rustIsWhitespace (Char.ofNat 0xA0) = true ∧
    ChessMove.fromChars [Char.ofNat 0xA0] = .error .InvalidInputFormat :=
  ⟨by decide, rfl⟩

/-- C10, amended: on non-empty ASCII input whose trimmed form is
non-empty, parsing the input equals parsing the trimmed input; a non-empty
ASCII string of only whitespace gives InvalidMove, not MissingMoveData. -/
theorem c10_trim_behavior :
    (∀ l : List Char, l ≠ [] → isAsciiChars l = true → trimChars l ≠ [] →
      ChessMove.fromChars l = ChessMove.fromChars (trimChars l)) ∧
    (∀ l : List Char, l ≠ [] → isAsciiChars l = true →
      (∀ c ∈ l, rustIsWhitespace c = true) →
      ChessMove.fromChars l = .error .InvalidMove) := by
  constructor
  · intro l hne hascii htne
    unfold ChessMove.fromChars
    rw [if_neg (by simpa [List.length_eq_zero] using hne), if_neg (by simp [hascii])]
    rw [if_neg (by simpa [List.length_eq_zero] using htne),
      if_neg (by simp [isAscii_trim hascii])]
    rw [trim_idem]
  · intro l hne hascii hws
    unfold ChessMove.fromChars
    rw [if_neg (by simpa [List.length_eq_zero] using hne), if_neg (by simp [hascii])]
    rw [trim_eq_nil_of_all hws]
    rfl

/-- C10, witness: the two amended statements at " e4 " and at a single
space. -/
theorem c10_trim_behavior_witness :
    ChessMove.fromChars [' ', 'e', '4', ' '] =
      ChessMove.fromChars (trimChars [' ', 'e', '4', ' ']) ∧
    ChessMove.fromChars [' '] = .error .InvalidMove :=
  ⟨c10_trim_behavior.1 [' ', 'e', '4', ' '] (by decide) (by decide) (by decide),
   c10_trim_behavior.2 [' '] (by decide) (by decide) (by decide)⟩

/-
C5: the builder validation order, with each condition written from the
claim's wording.
-/

/-- C5 condition: both the check and the checkmate flag are set. -/
def c5BothChecks (b : ChessMoveBuilder) : Bool :=
  b.is_check && b.is_check_mate

/-- C5 condition: a castle set together with a capture or a promotion. -/
def c5CastleConflict (b : ChessMoveBuilder) : Bool :=
  b.castle.isSome && (b.is_capture || b.promotion.isSome)

/-- C5 condition: a destination is present but incomplete. -/
def c5IncompleteDest (b : ChessMoveBuilder) : Bool :=
  match b.destination with
  | some dc => !dc.is_complete
  | none => false

/-- C5 condition: neither a destination nor a castle is present. -/
def c5NoMoveData (b : ChessMoveBuilder) : Bool :=
  b.destination.isNone && b.castle.isNone

/-- C5 condition: a capture by a pawn (the piece absent, hence defaulted
to Pawn, or explicitly Pawn) whose origin is absent or lacks a file. -/
def c5PawnCaptureNoFile (b : ChessMoveBuilder) : Bool :=
  (b.moving_piece.isNone || decide (b.moving_piece = some ChessPiece.Pawn)) &&
  b.is_capture &&
  (match b.origin with
   | some oc => oc.file.isNone
   | none => true)

theorem c5PawnCond_eq (b : ChessMoveBuilder) :
    c5PawnCaptureNoFile b =
      (decide (b.moving_piece.getD ChessPiece.Pawn = ChessPiece.Pawn) && b.is_capture &&
       (match b.origin with
        | some orig => orig.file.isNone
        | none => true)) := by
  unfold c5PawnCaptureNoFile
  rcases hmp : b.moving_piece with _ | p <;> simp [hmp]

/-- C5: ChessMoveBuilder::build validates its five conditions in order,
rejecting with exactly the claimed errors, and builds successfully when
none of them holds. -/
theorem c5_build_validation (b : ChessMoveBuilder) :
    (c5BothChecks b = true → b.build = .error .ImpossibleMove) ∧
    (c5BothChecks b = false → c5CastleConflict b = true →
      b.build = .error .ImpossibleMove) ∧
    (c5BothChecks b = false → c5CastleConflict b = false → c5IncompleteDest b = true →
      b.build = .error .MissingDestination) ∧
    (c5BothChecks b = false → c5CastleConflict b = false → c5IncompleteDest b = false →
      c5NoMoveData b = true → b.build = .error .MissingMoveData) ∧
    (c5BothChecks b = false → c5CastleConflict b = false → c5IncompleteDest b = false →
      c5NoMoveData b = false → c5PawnCaptureNoFile b = true →
      b.build = .error .MissingMoveData) ∧
    (c5BothChecks b = false → c5CastleConflict b = false → c5IncompleteDest b = false →
      c5NoMoveData b = false → c5PawnCaptureNoFile b = false →
      (b.build).isOk = true) := by
  refine ⟨?_, ?_, ?_, ?_, ?_, ?_⟩
  · intro h1
    unfold c5BothChecks at h1
    simp only [ChessMoveBuilder.build]
    rw [if_pos h1]
  · intro h1 h2
    unfold c5BothChecks at h1
    unfold c5CastleConflict at h2
    simp only [ChessMoveBuilder.build]
    rw [if_neg (by simp [h1]), if_pos h2]
  · intro h1 h2 h3
    unfold c5BothChecks at h1
    unfold c5CastleConflict at h2
    unfold c5IncompleteDest at h3
    simp only [ChessMoveBuilder.build]
    rw [if_neg (by simp [h1]), if_neg (by simp [h2]), if_pos h3]
  · intro h1 h2 h3 h4
    unfold c5BothChecks at h1
    unfold c5CastleConflict at h2
    unfold c5IncompleteDest at h3
    unfold c5NoMoveData at h4
    simp only [ChessMoveBuilder.build]
    rw [if_neg (by simp [h1]), if_neg (by simp [h2]), if_neg (by simp [h3]), if_pos h4]
  · intro h1 h2 h3 h4 h5
    have h5g : (decide (b.moving_piece.getD ChessPiece.Pawn = ChessPiece.Pawn) &&
        b.is_capture &&
        (match b.origin with
         | some orig => orig.file.isNone
         | none => true)) = true := by
      rw [← c5PawnCond_eq]; exact h5
    unfold c5BothChecks at h1
    unfold c5CastleConflict at h2
    unfold c5IncompleteDest at h3
    unfold c5NoMoveData at h4
    simp only [ChessMoveBuilder.build]
    rw [if_neg (by simp [h1]), if_neg (by simp [h2]), if_neg (by simp [h3]),
      if_neg (by simp [h4]), if_pos h5g]
  · intro h1 h2 h3 h4 h5
    have h5g : (decide (b.moving_piece.getD ChessPiece.Pawn = ChessPiece.Pawn) &&
        b.is_capture &&
        (match b.origin with
         | some orig => orig.file.isNone
         | none => true)) = false := by
      rw [← c5PawnCond_eq]; exact h5
    unfold c5BothChecks at h1
    unfold c5CastleConflict at h2
    unfold c5IncompleteDest at h3
    unfold c5NoMoveData at h4
    simp only [ChessMoveBuilder.build]
    rw [if_neg (by simp [h1]), if_neg (by simp [h2]), if_neg (by simp [h3]),
      if_neg (by simp [h4]), if_neg (by simp [h5g])]
    rfl

/-- C5, witness: two of the ordered validations at concrete builders. -/
theorem c5_build_validation_witness :
    (ChessMoveBuilder.new.set_is_check true |>.set_is_check_mate true).build =
      .error .ImpossibleMove ∧
    ((ChessMoveBuilder.new.set_destination { file := some .E, rank := some .R4 }).build).isOk
      = true :=
  ⟨(c5_build_validation _).1 (by rfl),
   (c5_build_validation _).2.2.2.2.2 (by rfl) (by rfl) (by rfl) (by rfl) (by rfl)⟩

/-
C6, C7: behaviour of the move list under push and pop.
-/

theorem popAux_nil : popAux [] = (none, []) := by
  rw [popAux.eq_def]
  rfl

theorem popAux_concat (xs : List PgnMove) (x : PgnMove) :
    popAux (xs ++ [x]) =
      (match x.remove_move with
       | (some mv, x') => (some mv, xs ++ [x'])
       | (none, _) => popAux xs) := by
  rw [popAux.eq_def]
  simp only [List.dropLast_concat]
  split
  · rename_i h
    simp [List.getLast?_concat] at h
  · rename_i pm h
    rw [List.getLast?_concat] at h
    injection h with h2
    subst h2
    rfl

/-- The move-list invariant: every pair before the last is complete, and
no pair ever holds a black half-move without a white one. -/
def MoveListInv (ms : List PgnMove) : Prop :=
  (∀ pm ∈ ms.dropLast, pm.white_move.isSome = true ∧ pm.black_move.isSome = true) ∧
  (∀ pm ∈ ms, pm.black_move.isSome = true → pm.white_move.isSome = true)

theorem inv_snoc {xs : List PgnMove} {y : PgnMove}
    (hxs : ∀ pm ∈ xs, pm.white_move.isSome = true ∧ pm.black_move.isSome = true)
    (hy : y.black_move.isSome = true → y.white_move.isSome = true) :
    MoveListInv (xs ++ [y]) := by
  constructor
  · intro pm hpm
    rw [List.dropLast_concat] at hpm
    exact hxs pm hpm
  · intro pm hpm
    rcases List.mem_append.mp hpm with h | h
    · intro _
      exact (hxs pm h).1
    · rw [List.mem_singleton.mp h]
      exact hy

theorem inv_front {xs : List PgnMove} {x : PgnMove} (h : MoveListInv (xs ++ [x])) :
    ∀ pm ∈ xs, pm.white_move.isSome = true ∧ pm.black_move.isSome = true := by
  intro pm hpm
  exact h.1 pm (by rw [List.dropLast_concat]; exact hpm)

theorem push_move_inv (l : MoveList) (m : ChessMove) (h : MoveListInv l.moves) :
    MoveListInv (l.push_move m).moves := by
  obtain ⟨ms⟩ := l
  rcases List.eq_nil_or_concat ms with rfl | ⟨xs, x, rfl⟩
  · have hc : (({ moves := [] } : MoveList).push_move m) =
        { moves := [{ white_move := some m, black_move := none }] } := rfl
    rw [hc]
    refine ⟨?_, ?_⟩
    · intro pm hpm
      simp at hpm
    · intro pm hpm
      rw [List.mem_singleton.mp hpm]
      simp
  · simp only [List.concat_eq_append] at h ⊢
    obtain ⟨w, bk⟩ := x
    have hfront := inv_front h
    rcases w with _ | wm <;> rcases bk with _ | bm
    · -- empty last pair: the white half is filled in place
      have hc : (({ moves := xs ++ [{ white_move := none, black_move := none }] } :
          MoveList).push_move m) =
          { moves := xs ++ [{ white_move := some m, black_move := none }] } := by
        unfold MoveList.push_move
        simp [List.getLast?_concat, List.dropLast_concat, PgnMove.get_state, PgnMove.add_move]
      rw [hc]
      exact inv_snoc hfront (by simp)
    · -- black without white cannot occur under the invariant
      exfalso
      have := h.2 { white_move := none, black_move := some bm }
        (by simp) (by simp)
      simp at this
    · -- white-only last pair: the black half is filled in place
      have hc : (({ moves := xs ++ [{ white_move := some wm, black_move := none }] } :
          MoveList).push_move m) =
          { moves := xs ++ [{ white_move := some wm, black_move := some m }] } := by
        unfold MoveList.push_move
        simp [List.getLast?_concat, List.dropLast_concat, PgnMove.get_state, PgnMove.add_move]
      rw [hc]
      exact inv_snoc hfront (by simp)
    · -- complete last pair: a fresh pair is appended
      have hc : (({ moves := xs ++ [{ white_move := some wm, black_move := some bm }] } :
          MoveList).push_move m) =
          { moves := (xs ++ [{ white_move := some wm, black_move := some bm }]) ++
            [{ white_move := some m, black_move := none }] } := by
        unfold MoveList.push_move
        simp [List.getLast?_concat, List.dropLast_concat, PgnMove.get_state, PgnMove.add_move,
          PgnMove.new]
      rw [hc]
      refine inv_snoc ?_ (by simp)
      intro pm hpm
      rcases List.mem_append.mp hpm with hmem | hmem
      · exact hfront pm hmem
      · rw [List.mem_singleton.mp hmem]
        simp
  -- also cover the intermediate cases generated above

theorem popAux_inv (ms : List PgnMove) (h : MoveListInv ms) :
    MoveListInv (popAux ms).2 := by
  induction ms using List.reverseRecOn with
  | nil =>
    rw [popAux_nil]
    exact h
  | append_singleton xs x ih =>
    rw [popAux_concat]
    obtain ⟨w, bk⟩ := x
    have hfront := inv_front h
    rcases bk with _ | bm
    · rcases w with _ | wm
      · -- empty pair: it is dropped and popping continues on the front
        have hxinv : MoveListInv xs := by
          constructor
          · intro pm hpm
            exact hfront pm (List.mem_of_mem_dropLast hpm)
          · intro pm hpm _
            exact (hfront pm hpm).1
        exact ih hxinv
      · -- white-only pair: the white half is removed, the empty pair stays
        exact inv_snoc hfront (by simp)
    · -- the black half is removed
      exact inv_snoc hfront (by simp)

theorem pop_move_inv (l : MoveList) (h : MoveListInv l.moves) :
    MoveListInv (l.pop_move).2.moves := by
  unfold MoveList.pop_move
  exact popAux_inv l.moves h

/-- A single step of interaction with a MoveList. -/
inductive MoveListOp
  | push (m : ChessMove)
  | pop

/-- Run a sequence of push and pop operations on a fresh MoveList. -/
def runOps (ops : List MoveListOp) : MoveList :=
  ops.foldl
    (fun l op =>
      match op with
      | .push m => l.push_move m
      | .pop => (l.pop_move).2)
    MoveList.new

theorem foldl_inv (ops : List MoveListOp) (l : MoveList) (h : MoveListInv l.moves) :
    MoveListInv (ops.foldl
      (fun l op =>
        match op with
        | .push m => l.push_move m
        | .pop => (l.pop_move).2) l).moves := by
  induction ops generalizing l with
  | nil => exact h
  | cons op rest ih =>
    cases op with
    | push m => exact ih _ (push_move_inv l m h)
    | pop => exact ih _ (pop_move_inv l h)

theorem runOps_inv (ops : List MoveListOp) : MoveListInv (runOps ops).moves :=
  foldl_inv ops MoveList.new ⟨by simp [MoveList.new], by simp [MoveList.new]⟩

theorem get_turn_empty (l : MoveList) (h : l.moves = []) : l.get_turn = .WhiteToMove := by
  unfold MoveList.get_turn
  rw [h]
  rfl

theorem get_turn_complete (l : MoveList) (pm : PgnMove) (h : l.moves.getLast? = some pm)
    (hw : pm.white_move.isSome = true) (hb : pm.black_move.isSome = true) :
    l.get_turn = .WhiteToMove := by
  unfold MoveList.get_turn
  rw [h]
  have h1 : pm.white_move.isNone = false := by
    rcases hx : pm.white_move with _ | v
    · rw [hx] at hw; simp at hw
    · rfl
  have h2 : pm.black_move.isNone = false := by
    rcases hx : pm.black_move with _ | v
    · rw [hx] at hb; simp at hb
    · rfl
  simp [PgnMove.get_state, h1, h2]

theorem get_turn_white_only (l : MoveList) (pm : PgnMove) (h : l.moves.getLast? = some pm)
    (hw : pm.white_move.isSome = true) (hb : pm.black_move = none) :
    l.get_turn = .BlackToMove := by
  unfold MoveList.get_turn
  rw [h]
  have h1 : pm.white_move.isNone = false := by
    rcases hx : pm.white_move with _ | v
    · rw [hx] at hw; simp at hw
    · rfl
  simp [PgnMove.get_state, h1, hb]

/-- C6: after every finite sequence of push and pop operations on a fresh
MoveList, every pair except possibly the last is complete, no pair holds a
black half-move without a white one, and get_turn is White exactly on an
empty list or a complete last pair and Black on a white-only last pair. -/
theorem c6_movelist_invariant (ops : List MoveListOp) :
    (∀ pm ∈ (runOps ops).moves.dropLast,
      pm.white_move.isSome = true ∧ pm.black_move.isSome = true) ∧
    (∀ pm ∈ (runOps ops).moves,
      pm.black_move.isSome = true → pm.white_move.isSome = true) ∧
    ((runOps ops).moves = [] → (runOps ops).get_turn = .WhiteToMove) ∧
    (∀ pm, (runOps ops).moves.getLast? = some pm → pm.white_move.isSome = true →
      pm.black_move.isSome = true → (runOps ops).get_turn = .WhiteToMove) ∧
    (∀ pm, (runOps ops).moves.getLast? = some pm → pm.white_move.isSome = true →
      pm.black_move = none → (runOps ops).get_turn = .BlackToMove) := by
  refine ⟨(runOps_inv ops).1, (runOps_inv ops).2, ?_, ?_, ?_⟩
  · exact get_turn_empty (runOps ops)
  · intro pm h hw hb
    exact get_turn_complete (runOps ops) pm h hw hb
  · intro pm h hw hb
    exact get_turn_white_only (runOps ops) pm h hw hb

/-- C6, witness: after one push the turn is Black. -/
theorem c6_movelist_invariant_witness :
    (runOps [.push kingsideMove]).get_turn = .BlackToMove :=
  (c6_movelist_invariant [.push kingsideMove]).2.2.2.2
    { white_move := some kingsideMove, black_move := none } rfl rfl rfl

theorem popAux_single_full (m1 m2 : ChessMove) :
    popAux [{ white_move := some m1, black_move := some m2 }] =
      (some m2, [{ white_move := some m1, black_move := none }]) := by
  have h := popAux_concat [] { white_move := some m1, black_move := some m2 }
  simpa [PgnMove.remove_move] using h

theorem popAux_single_white (m1 : ChessMove) :
    popAux [{ white_move := some m1, black_move := none }] =
      (some m1, [{ white_move := none, black_move := none }]) := by
  have h := popAux_concat [] { white_move := some m1, black_move := none }
  simpa [PgnMove.remove_move] using h

theorem popAux_single_empty :
    popAux [({ white_move := none, black_move := none } : PgnMove)] = (none, []) := by
  have h := popAux_concat [] ({ white_move := none, black_move := none } : PgnMove)
  simpa [PgnMove.remove_move, popAux_nil] using h

/-- C7, counterexample: after push, push and two pops, the list still
holds one (now empty) pair, so it is not empty as the claim states. -/
theorem c7_push_pop_counterexample :
    ((((MoveList.new.push_move kingsideMove).push_move
      kingsideMove).pop_move.2).pop_move.2).moves =
      [{ white_move := none, black_move := none }] ∧
    [({ white_move := none, black_move := none } : PgnMove)] ≠ [] := by
  have hpush : ((MoveList.new.push_move kingsideMove).push_move kingsideMove) =
      ({ moves := [{ white_move := some kingsideMove, black_move := some kingsideMove }] } :
        MoveList) := rfl
  have hpop1 : (({ moves :=
      [{ white_move := some kingsideMove, black_move := some kingsideMove }] } :
        MoveList)).pop_move =
      (some kingsideMove,
        ({ moves := [{ white_move := some kingsideMove, black_move := none }] } : MoveList)) := by
    unfold MoveList.pop_move
    rw [popAux_single_full]
  have hpop2 : (({ moves := [{ white_move := some kingsideMove, black_move := none }] } :
        MoveList)).pop_move =
      (some kingsideMove,
        ({ moves := [{ white_move := none, black_move := none }] } : MoveList)) := by
    unfold MoveList.pop_move
    rw [popAux_single_white]
  constructor
  · rw [hpush, hpop1]
    show (({ moves := [{ white_move := some kingsideMove, black_move := none }] } :
      MoveList)).pop_move.2.moves = _
    rw [hpop2]
  · simp

/-- C7, amended: on a fresh MoveList, push m1 then push m2 leaves one pair
with white m1 and black m2 and the turn White; pop returns m2; the next
pop returns m1 but leaves the emptied pair in the list; a further pop
returns none and drops the empty pair, leaving the list empty. -/
theorem c7_push_pop (m1 m2 : ChessMove) :
    ((MoveList.new.push_move m1).push_move m2).moves =
      [{ white_move := some m1, black_move := some m2 }] ∧
    ((MoveList.new.push_move m1).push_move m2).get_turn = .WhiteToMove ∧
    ((MoveList.new.push_move m1).push_move m2).pop_move =
      (some m2, { moves := [{ white_move := some m1, black_move := none }] }) ∧
    (((MoveList.new.push_move m1).push_move m2).pop_move.2).pop_move =
      (some m1, { moves := [{ white_move := none, black_move := none }] }) ∧
    ((((MoveList.new.push_move m1).push_move m2).pop_move.2).pop_move.2).pop_move =
      (none, { moves := [] }) := by
  have hpush : ((MoveList.new.push_move m1).push_move m2) =
      ({ moves := [{ white_move := some m1, black_move := some m2 }] } : MoveList) := rfl
  have hpop1 : (({ moves := [{ white_move := some m1, black_move := some m2 }] } :
        MoveList)).pop_move =
      (some m2, ({ moves := [{ white_move := some m1, black_move := none }] } : MoveList)) := by
    unfold MoveList.pop_move
    rw [popAux_single_full]
  have hpop2 : (({ moves := [{ white_move := some m1, black_move := none }] } :
        MoveList)).pop_move =
      (some m1, ({ moves := [{ white_move := none, black_move := none }] } : MoveList)) := by
    unfold MoveList.pop_move
    rw [popAux_single_white]
  have hpop3 : (({ moves := [({ white_move := none, black_move := none } : PgnMove)] } :
        MoveList)).pop_move = (none, ({ moves := [] } : MoveList)) := by
    unfold MoveList.pop_move
    rw [popAux_single_empty]
  refine ⟨by rw [hpush], by rw [hpush]; rfl, by rw [hpush]; exact hpop1, ?_, ?_⟩
  · rw [hpush, hpop1]
    exact hpop2
  · rw [hpush, hpop1]
    show (({ moves := [{ white_move := some m1, black_move := none }] } :
      MoveList)).pop_move.2.pop_move = _
    rw [hpop2]
    exact hpop3

def mN8 : ChessMove :=
  { origin := some { file := some .B, rank := some .R1 },
    destination := some { file := some .C, rank := some .R3 },
    moving_piece := some .Knight, castle := none, promotion := none,
    is_capture := true, is_check := false, is_check_mate := false }

def mQ8 : ChessMove :=
  { origin := some { file := some .D, rank := some .R1 },
    destination := some { file := some .D, rank := some .R2 },
    moving_piece := some .Queen, castle := none, promotion := none,
    is_capture := true, is_check := false, is_check_mate := false }

def ml8 : MoveList :=
  { moves :=
      [ { white_move := some mN8, black_move := some mN8 },
        { white_move := some mN8, black_move := some mN8 },
        { white_move := some mN8, black_move := some mN8 },
        { white_move := some mN8, black_move := some mN8 },
        { white_move := some mN8, black_move := some mQ8 } ] }

def g8 : PgnGame :=
  { event := { tag_name := ['E','v','e','n','t'], tag_value := ['T','e','s','t'] },
    site := { tag_name := ['S','i','t','e'], tag_value := ['?'] },
    date := { tag_name := ['D','a','t','e'],
              tag_value := { year := some 2024, month := some 1, day := some 1 } },
    round := { tag_name := ['R','o','u','n','d'], tag_value := PgnRound.Unknown },
    white := { tag_name := ['W','h','i','t','e'], tag_value := ['A'] },
    black := { tag_name := ['B','l','a','c','k'], tag_value := ['B'] },
    result := { tag_name := ['R','e','s','u','l','t'], tag_value := PgnResult.Unknown },
    moves := ml8 }

/-- C8: the wrapping pass of the MoveList Display implementation drops the
token that first reaches the 80-column budget, so a game whose fifth move
pair pushes the line to the limit loses the black half-move Qd1xd2 from
its rendering entirely: the token never occurs in the displayed game even
though the move is in the list. The spec's guarantee that the rendering
consists of all the move tokens, merely wrapped, is violated by the code. -/
theorem c8_dropped_token :
    g8.moves.moves.getLast? =
      some { white_move := some mN8, black_move := some mQ8 } ∧
    formatMove mQ8 = ['Q', 'd', '1', 'x', 'd', '2'] ∧
    occurs (formatMove mQ8) g8.displayChars = false :=
  ⟨rfl, rfl, by decide⟩

end RustChess
